import Mathlib

/-!
Verification of the procedural sphere mesh generator (`Sphere` in
`src/geometries/sphere.cpp` of the pendulum repository).

The C++ class computes, from `radius`, `m_n_longitudes` and `m_n_latitudes`:
  * a flat vertex buffer `m_vertexes` (6 floats per vertex: position xyz
    followed by normal xyz), filled by `Sphere::set_vertexes` and
    `Sphere::set_normals`;
  * a flat index buffer `m_indices`, filled by `Sphere::set_indices`.

Floats are modelled as real numbers; the 32-bit unsigned counters are
modelled as `ℕ`, with the one subtraction that can actually wrap under the
documented preconditions (`m_n_latitudes - 2`, the body-band loop bound)
modelled in 32-bit modular arithmetic (`u32sub`).
-/

namespace SphereMesh

/-- Modelled from the spec: the per-vertex stride constant `m_n_coords`
declared in the missing header `geometries/sphere.hpp`; the spec fixes it as
"a flat numeric buffer with a fixed per-vertex stride (6 floats: 3 position
+ 3 normal)", and `Sphere::set_normals` writes offsets `i_coord + 3 .. 5`. -/
def m_n_coords : ℕ := 6

/-- Value of `2^32`, the modulus of the C++ `unsigned int` arithmetic. -/
def U32 : ℕ := 4294967296

/-- Unsigned 32-bit subtraction `a - b` (the source computes loop bounds such
as `m_n_latitudes - 2` on `unsigned int`, which wraps modulo `2^32`). -/
def u32sub (a b : ℕ) : ℕ := (a + (U32 - b % U32)) % U32

/-- Vertex count `m_n_vertexes = 1 + m_n_longitudes * (m_n_latitudes - 1) + 1`
set in the member-initializer list of `Sphere::Sphere`. -/
def m_n_vertexes (n_longitudes n_latitudes : ℕ) : ℕ :=
  1 + n_longitudes * (n_latitudes - 1) + 1

/-- Vertex buffer produced by `Sphere::set_vertexes`, as the flat list of
floats it leaves in `m_vertexes`.  The source resizes the buffer to
`m_n_coords * m_n_vertexes` zeroes and then writes positions at
`i_coord, i_coord+1, i_coord+2` with `i_coord` starting at `0` (north pole),
advancing by `m_n_coords = 6` per vertex: first the north pole, then for
`i_lat = 1 .. m_n_latitudes-1` and `i_lon = 0 .. m_n_longitudes-1` the ring
vertices, finally the south pole.  Each 6-float slot below is one vertex:
its position followed by the three zeroes the resize left in the normal
slots (overwritten later by `set_normals`).  `ringSlot` is the 6-float slot
written for ring vertex `(i_lat, i_lon)`: the position
`(r cos(lon) sin(lat), r cos(lat), r sin(lon) sin(lat))` with
`lon = i_lon * lon_step`, `lon_step = 2π / m_n_longitudes`,
`lat = i_lat * lat_step`, `lat_step = π / m_n_latitudes`, followed by the
three zeroes in the normal slots. -/
noncomputable def ringSlot (r : ℝ) (n_lon n_lat i_lat i_lon : ℕ) : List ℝ :=
  [r * Real.cos (i_lon * (2 * Real.pi / n_lon)) *
     Real.sin (i_lat * (Real.pi / n_lat)),
   r * Real.cos (i_lat * (Real.pi / n_lat)),
   r * Real.sin (i_lon * (2 * Real.pi / n_lon)) *
     Real.sin (i_lat * (Real.pi / n_lat)),
   0, 0, 0]

/-- One ring of vertex slots: the inner `i_lon` loop of `set_vertexes`. -/
noncomputable def ringBlock (r : ℝ) (n_lon n_lat i_lat : ℕ) : List ℝ :=
  (List.range n_lon).flatMap (ringSlot r n_lon n_lat i_lat)

noncomputable def set_vertexes (r : ℝ) (n_lon n_lat : ℕ) : List ℝ :=
  [0, r, 0, 0, 0, 0]
  ++ (List.range' 1 (n_lat - 1)).flatMap (ringBlock r n_lon n_lat)
  ++ [0, -r, 0, 0, 0, 0]

/-- Buffer offsets written by `Sphere::set_vertexes`: indices `0,1,2` for the
north pole, then per loop iteration `t` (the two nested loops run
`(m_n_latitudes-1) * m_n_longitudes` iterations, `i_coord` starting at
`m_n_coords = 6` and advancing by 6) the offsets `6(t+1), 6(t+1)+1,
6(t+1)+2`, and finally the south-pole offsets. -/
def set_vertexes_write_offsets (n_lon n_lat : ℕ) : List ℕ :=
  [0, 1, 2]
  ++ (List.range ((n_lat - 1) * n_lon)).flatMap
       (fun t => [6 * (t + 1), 6 * (t + 1) + 1, 6 * (t + 1) + 2])
  ++ [6 * ((n_lat - 1) * n_lon + 1), 6 * ((n_lat - 1) * n_lon + 1) + 1,
      6 * ((n_lat - 1) * n_lon + 1) + 2]

/-- Buffer offsets read or written by `Sphere::set_normals`: for each
`i_vertex < m_n_vertexes` it reads `i_coord .. i_coord+2` and writes
`i_coord+3 .. i_coord+5` with `i_coord = m_n_coords * i_vertex`. -/
def set_normals_access_offsets (n_lon n_lat : ℕ) : List ℕ :=
  (List.range (m_n_vertexes n_lon n_lat)).flatMap
    (fun i_vertex => [6 * i_vertex, 6 * i_vertex + 1, 6 * i_vertex + 2,
                      6 * i_vertex + 3, 6 * i_vertex + 4, 6 * i_vertex + 5])

/-- Body-band loop bound `m_n_latitudes - 2` of `Sphere::set_indices`,
computed in 32-bit unsigned arithmetic (it wraps when `m_n_latitudes < 2`). -/
def bodyBandCount (n_lat : ℕ) : ℕ := u32sub n_lat 2

/-- North-cap triples of `Sphere::set_indices`: `{0, i_lon+1, i_lon}` for
`i_lon = 1 .. m_n_longitudes-1`, then the closing triple
`{0, 1, m_n_longitudes}`. -/
def northTriples (n_lon : ℕ) : List (ℕ × ℕ × ℕ) :=
  ((List.range' 1 (n_lon - 1)).map fun i_lon => (0, i_lon + 1, i_lon))
  ++ [(0, 1, n_lon)]

/-- Triples of one body band (`i_lat` iteration of the outer body loop of
`Sphere::set_indices`): per `i_lon = 1 .. m_n_longitudes-1` the two
triangles `{i_p0, i_p1, i_p2}` and `{i_p1, i_p3, i_p2}`, then the two
cycle-closing triangles `{i_p0, i_p2, i_p1}` and `{i_p1, i_p2, i_p3}`
computed from the re-assigned corner indices. -/
def bandTriples (n_lon i_lat : ℕ) : List (ℕ × ℕ × ℕ) :=
  ((List.range' 1 (n_lon - 1)).flatMap fun i_lon =>
    [(i_lon + i_lat * n_lon, (i_lon + i_lat * n_lon) + 1,
      (i_lon + n_lon) + i_lat * n_lon),
     ((i_lon + i_lat * n_lon) + 1, ((i_lon + n_lon) + i_lat * n_lon) + 1,
      (i_lon + n_lon) + i_lat * n_lon)])
  ++ [(1 + i_lat * n_lon, (1 + i_lat * n_lon) + n_lon, n_lon + i_lat * n_lon),
      (n_lon + i_lat * n_lon, (1 + i_lat * n_lon) + n_lon,
       (n_lon + i_lat * n_lon) + n_lon)]

/-- All body-band triples of `Sphere::set_indices`. -/
def bodyTriples (n_lon n_lat : ℕ) : List (ℕ × ℕ × ℕ) :=
  (List.range (bodyBandCount n_lat)).flatMap (bandTriples n_lon)

/-- Index of the south-pole vertex,
`indice_last = m_n_longitudes * (m_n_latitudes - 1) + 1`. -/
def indice_last (n_lon n_lat : ℕ) : ℕ := n_lon * (n_lat - 1) + 1

/-- South-cap triples of `Sphere::set_indices`:
`{indice_last, indice_last - (i_lon+1), indice_last - i_lon}` for
`i_lon = 1 .. m_n_longitudes-1`, then the closing triple
`{indice_last, indice_last - 1, indice_last - m_n_longitudes}`.  Under the
preconditions `m_n_latitudes ≥ 2`, `i_lon < m_n_longitudes` these unsigned
subtractions cannot wrap (`indice_last ≥ m_n_longitudes + 1`), so they are
modelled with truncated `ℕ` subtraction. -/
def southTriples (n_lon n_lat : ℕ) : List (ℕ × ℕ × ℕ) :=
  ((List.range' 1 (n_lon - 1)).map fun i_lon =>
    (indice_last n_lon n_lat, indice_last n_lon n_lat - (i_lon + 1),
     indice_last n_lon n_lat - i_lon))
  ++ [(indice_last n_lon n_lat, indice_last n_lon n_lat - 1,
       indice_last n_lon n_lat - n_lon)]

/-- Flattening of one index triple into the three entries that
`m_indices.insert(m_indices.end(), {a, b, c})` appends. -/
def triFlat (t : ℕ × ℕ × ℕ) : List ℕ := [t.1, t.2.1, t.2.2]

/-- Flat index buffer `m_indices` produced by `Sphere::set_indices`: each
`insert` call appends one triple's three entries, in program order
north cap, body bands, south cap. -/
def set_indices (n_lon n_lat : ℕ) : List ℕ :=
  (northTriples n_lon ++ bodyTriples n_lon n_lat
    ++ southTriples n_lon n_lat).flatMap triFlat

/-- Return value of `Sphere::get_n_elements`, i.e. `m_indices.size()`. -/
def get_n_elements (n_lon n_lat : ℕ) : ℕ := (set_indices n_lon n_lat).length

/-- Dot product of two 3-vectors (`glm::dot`). -/
noncomputable def dot3 (u v : ℝ × ℝ × ℝ) : ℝ := u.1 * v.1 + u.2.1 * v.2.1 + u.2.2 * v.2.2

/-- Normalization of a 3-vector (`glm::normalize`): the vector divided by
`sqrt(dot(v, v))`. -/
noncomputable def glm_normalize (v : ℝ × ℝ × ℝ) : ℝ × ℝ × ℝ :=
  (v.1 / Real.sqrt (dot3 v v), v.2.1 / Real.sqrt (dot3 v v),
   v.2.2 / Real.sqrt (dot3 v v))

/-- One iteration of the `Sphere::set_normals` loop: read the position at
offsets `i_coord .. i_coord+2` (`i_coord = m_n_coords * i_vertex`),
normalize it, and store it at offsets `i_coord+3 .. i_coord+5`. -/
noncomputable def normStep (b : List ℝ) (i_vertex : ℕ) : List ℝ :=
  ((b.set (m_n_coords * i_vertex + 3)
      (glm_normalize (b.getD (m_n_coords * i_vertex) 0,
        b.getD (m_n_coords * i_vertex + 1) 0,
        b.getD (m_n_coords * i_vertex + 2) 0)).1).set
    (m_n_coords * i_vertex + 4)
      (glm_normalize (b.getD (m_n_coords * i_vertex) 0,
        b.getD (m_n_coords * i_vertex + 1) 0,
        b.getD (m_n_coords * i_vertex + 2) 0)).2.1).set
    (m_n_coords * i_vertex + 5)
      (glm_normalize (b.getD (m_n_coords * i_vertex) 0,
        b.getD (m_n_coords * i_vertex + 1) 0,
        b.getD (m_n_coords * i_vertex + 2) 0)).2.2

/-- Buffer produced by `Sphere::set_normals` from buffer `b`: the loop body
`normStep` applied for `i_vertex = 0 .. n_vertexes - 1`. -/
noncomputable def set_normals (b : List ℝ) (n_vertexes : ℕ) : List ℝ :=
  (List.range n_vertexes).foldl normStep b

/-- Final vertex buffer after construction (`set_vertexes` then
`set_normals`; `set_indices` does not touch `m_vertexes`). -/
noncomputable def sphere_vertexes (r : ℝ) (n_lon n_lat : ℕ) : List ℝ :=
  set_normals (set_vertexes r n_lon n_lat) (m_n_vertexes n_lon n_lat)

/-- Position (floats 0..2) of vertex `i` in the constructed buffer. -/
noncomputable def position_of (r : ℝ) (n_lon n_lat i : ℕ) : ℝ × ℝ × ℝ :=
  ((sphere_vertexes r n_lon n_lat).getD (m_n_coords * i) 0,
   (sphere_vertexes r n_lon n_lat).getD (m_n_coords * i + 1) 0,
   (sphere_vertexes r n_lon n_lat).getD (m_n_coords * i + 2) 0)

/-- Normal (floats 3..5) of vertex `i` in the constructed buffer. -/
noncomputable def normal_of (r : ℝ) (n_lon n_lat i : ℕ) : ℝ × ℝ × ℝ :=
  ((sphere_vertexes r n_lon n_lat).getD (m_n_coords * i + 3) 0,
   (sphere_vertexes r n_lon n_lat).getD (m_n_coords * i + 4) 0,
   (sphere_vertexes r n_lon n_lat).getD (m_n_coords * i + 5) 0)

/-- Grouping of a flat index list into consecutive triples. -/
def chunk3 : List ℕ → List (ℕ × ℕ × ℕ)
  | a :: b :: c :: rest => (a, b, c) :: chunk3 rest
  | _ => []

/-- Cross product of two 3-vectors. -/
noncomputable def cross3 (u v : ℝ × ℝ × ℝ) : ℝ × ℝ × ℝ :=
  (u.2.1 * v.2.2 - u.2.2 * v.2.1,
   u.2.2 * v.1 - u.1 * v.2.2,
   u.1 * v.2.1 - u.2.1 * v.1)

/-- Centroid of a triangle; for a sphere centered at the origin it points
from the center outward through the triangle. -/
noncomputable def centroid3 (a b c : ℝ × ℝ × ℝ) : ℝ × ℝ × ℝ :=
  ((a.1 + b.1 + c.1) / 3, (a.2.1 + b.2.1 + c.2.1) / 3,
   (a.2.2 + b.2.2 + c.2.2) / 3)

/-- Triangle `(a, b, c)` is counter-clockwise-wound when viewed from outside
the origin-centered sphere: its oriented normal `(b-a) × (c-a)` points to
the same side as the outward direction through the triangle's centroid. -/
def ccwFromOutside (a b c : ℝ × ℝ × ℝ) : Prop :=
  0 < dot3 (cross3 (b - a) (c - a)) (centroid3 a b c)

/-- Spherical-to-Cartesian point used by `set_vertexes`:
`(r cos θ sin φ, r cos φ, r sin θ sin φ)`. -/
noncomputable def spherePt (r θ φ : ℝ) : ℝ × ℝ × ℝ :=
  (r * Real.cos θ * Real.sin φ, r * Real.cos φ, r * Real.sin θ * Real.sin φ)

/-! ### Generic list helpers -/

lemma length_flatMap_const {α β : Type*} (l : List α) (f : α → List β) (B : ℕ)
    (h : ∀ a ∈ l, (f a).length = B) :
    (l.flatMap f).length = l.length * B := by
  induction l with
  | nil => simp
  | cons x xs ih =>
    rw [List.flatMap_cons, List.length_append, h x (by simp),
      ih (fun a ha => h a (by simp [ha])), List.length_cons]
    ring

lemma chunk3_flatMap (ts : List (ℕ × ℕ × ℕ)) :
    chunk3 (ts.flatMap triFlat) = ts := by
  induction ts with
  | nil => rfl
  | cons t ts ih =>
    rw [List.flatMap_cons]
    show chunk3 (t.1 :: t.2.1 :: t.2.2 :: ts.flatMap triFlat) = t :: ts
    rw [chunk3, ih]

/-! ### Sizes -/

lemma bodyBandCount_eq {n_lat : ℕ} (h2 : 2 ≤ n_lat) (hlt : n_lat < U32) :
    bodyBandCount n_lat = n_lat - 2 := by
  simp only [bodyBandCount, u32sub, U32] at *
  omega

lemma normStep_length (b : List ℝ) (i : ℕ) : (normStep b i).length = b.length := by
  simp [normStep]

lemma foldl_normStep_length (l : List ℕ) (b : List ℝ) :
    (l.foldl normStep b).length = b.length := by
  induction l generalizing b with
  | nil => rfl
  | cons x xs ih => rw [List.foldl_cons, ih, normStep_length]

lemma ringSlot_length (r : ℝ) (n_lon n_lat i_lat i_lon : ℕ) :
    (ringSlot r n_lon n_lat i_lat i_lon).length = 6 := rfl

lemma ringBlock_length (r : ℝ) (n_lon n_lat i_lat : ℕ) :
    (ringBlock r n_lon n_lat i_lat).length = n_lon * 6 := by
  rw [ringBlock, length_flatMap_const (List.range n_lon)
    (ringSlot r n_lon n_lat i_lat) 6
    (fun a _ => ringSlot_length r n_lon n_lat i_lat a), List.length_range]

lemma mid_length (r : ℝ) (n_lon n_lat : ℕ) :
    ((List.range' 1 (n_lat - 1)).flatMap (ringBlock r n_lon n_lat)).length
      = (n_lat - 1) * (n_lon * 6) := by
  rw [length_flatMap_const _ _ (n_lon * 6)
    (fun a _ => ringBlock_length r n_lon n_lat a), List.length_range']

lemma set_vertexes_length (r : ℝ) (n_lon n_lat : ℕ) :
    (set_vertexes r n_lon n_lat).length = 6 * m_n_vertexes n_lon n_lat := by
  unfold set_vertexes m_n_vertexes
  rw [List.length_append, List.length_append, mid_length]
  simp only [List.length_cons, List.length_nil]
  generalize n_lat - 1 = k
  ring

lemma sphere_vertexes_length (r : ℝ) (n_lon n_lat : ℕ) :
    (sphere_vertexes r n_lon n_lat).length = 6 * m_n_vertexes n_lon n_lat := by
  rw [sphere_vertexes, set_normals, foldl_normStep_length, set_vertexes_length]

lemma northTriples_length {n_lon : ℕ} (h : 1 ≤ n_lon) :
    (northTriples n_lon).length = n_lon := by
  simp [northTriples]
  omega

lemma bandTriples_length {n_lon : ℕ} (h : 1 ≤ n_lon) (i_lat : ℕ) :
    (bandTriples n_lon i_lat).length = 2 * n_lon := by
  unfold bandTriples
  simp only [List.length_append, List.length_flatMap, Function.comp_def,
    List.length_cons, List.length_nil, List.map_const', List.length_range',
    List.sum_replicate, smul_eq_mul]
  omega

lemma bodyTriples_length {n_lon n_lat : ℕ} (h : 1 ≤ n_lon) (h2 : 2 ≤ n_lat)
    (hlt : n_lat < U32) :
    (bodyTriples n_lon n_lat).length = (n_lat - 2) * (2 * n_lon) := by
  unfold bodyTriples
  rw [length_flatMap_const _ _ (2 * n_lon) (fun a _ => bandTriples_length h a),
    List.length_range, bodyBandCount_eq h2 hlt]

lemma southTriples_length {n_lon n_lat : ℕ} (h : 1 ≤ n_lon) :
    (southTriples n_lon n_lat).length = n_lon := by
  simp [southTriples]
  omega

lemma set_indices_length {n_lon n_lat : ℕ} (h3 : 3 ≤ n_lon) (h2 : 2 ≤ n_lat)
    (hlt : n_lat < U32) :
    (set_indices n_lon n_lat).length = 6 * (n_lon * (n_lat - 1)) := by
  have h1 : 1 ≤ n_lon := by omega
  unfold set_indices
  rw [length_flatMap_const _ _ 3 (fun a _ => rfl : ∀ a ∈ _, (triFlat a).length = 3),
    List.length_append, List.length_append, northTriples_length h1,
    southTriples_length h1, bodyTriples_length h1 h2 hlt]
  obtain ⟨k, hk⟩ : ∃ k, n_lat = k + 2 := ⟨n_lat - 2, by omega⟩
  subst hk
  simp only [Nat.add_sub_cancel]
  have : k + 2 - 1 = k + 1 := by omega
  rw [this]
  ring

/-! ### Claims C1 and C10 -/

/-- C1: for every radius > 0, longitudeCount ≥ 3 and latitudeCount ≥ 2 (a
32-bit unsigned value in the source), the constructed mesh has exactly
`2 + longitudeCount·(latitudeCount−1)` vertices (the vertex buffer holding 6
floats per vertex), the index list has exactly
`6·longitudeCount·(latitudeCount−1)` entries (divisible by 3), and
`get_n_elements` returns exactly that index count. -/
theorem claim_C1_counts {r : ℝ} {n_lon n_lat : ℕ} (hr : 0 < r)
    (h3 : 3 ≤ n_lon) (h2 : 2 ≤ n_lat) (hlt : n_lat < U32) :
    (sphere_vertexes r n_lon n_lat).length = 6 * (2 + n_lon * (n_lat - 1)) ∧
    (set_indices n_lon n_lat).length = 6 * (n_lon * (n_lat - 1)) ∧
    3 ∣ (set_indices n_lon n_lat).length ∧
    get_n_elements n_lon n_lat = 6 * (n_lon * (n_lat - 1)) := by
  have hv : m_n_vertexes n_lon n_lat = 2 + n_lon * (n_lat - 1) := by
    unfold m_n_vertexes; omega
  have hi := set_indices_length h3 h2 hlt
  refine ⟨by rw [sphere_vertexes_length, hv], hi, ?_, ?_⟩
  · exact hi ▸ Dvd.intro (2 * (n_lon * (n_lat - 1))) (by ring)
  · rw [get_n_elements, hi]

/-- Witness for C1 at `radius = 1`, `longitudeCount = 4`, `latitudeCount = 2`. -/
theorem claim_C1_counts_witness :
    (0:ℝ) < 1 ∧ 3 ≤ 4 ∧ 2 ≤ 2 ∧ 2 < U32 ∧
    ((sphere_vertexes 1 4 2).length = 6 * (2 + 4 * (2 - 1)) ∧
     (set_indices 4 2).length = 6 * (4 * (2 - 1)) ∧
     3 ∣ (set_indices 4 2).length ∧
     get_n_elements 4 2 = 6 * (4 * (2 - 1))) :=
  ⟨by norm_num, by norm_num, le_refl 2, by norm_num [U32],
   claim_C1_counts (r := 1) (by norm_num) (by norm_num) (le_refl 2)
     (by norm_num [U32])⟩

/-- C10: with `latitudeCount = 1` (below the documented minimum of 2) the
constructor still runs (the model is total; the source has no guard): the
unsigned loop bound `m_n_latitudes - 2` of `set_indices` wraps modulo `2^32`
to `4294967295`, so the body-band loop (which iterates over
`List.range (bodyBandCount n_lat)`) runs `4294967295` times instead of zero,
while the vertex buffer was sized for only `m_n_vertexes = 2` vertices
(12 floats). -/
theorem claim_C10_latitude_one_wraps (r : ℝ) (n_lon : ℕ) :
    bodyBandCount 1 = 4294967295 ∧
    (List.range (bodyBandCount 1)).length = 4294967295 ∧
    m_n_vertexes n_lon 1 = 2 ∧
    (set_vertexes r n_lon 1).length = 6 * 2 := by
  have hb : bodyBandCount 1 = 4294967295 := by
    simp [bodyBandCount, u32sub, U32]
  refine ⟨hb, by rw [List.length_range, hb], by simp [m_n_vertexes], ?_⟩
  rw [set_vertexes_length]
  simp [m_n_vertexes]

/-- C9: under `longitudeCount ≥ 3`, `latitudeCount ≥ 2`, every offset that
construction reads or writes in the vertex buffer (in `set_vertexes` and
`set_normals`) is strictly below the allocated size
`6 · (2 + longitudeCount·(latitudeCount−1))` floats (the size
`m_n_coords * m_n_vertexes` passed to `resize`, which is also the length of
the modelled buffer), so construction causes no out-of-bounds access. -/
theorem claim_C9_no_oob {r : ℝ} {n_lon n_lat : ℕ} (h3 : 3 ≤ n_lon)
    (h2 : 2 ≤ n_lat) :
    (set_vertexes r n_lon n_lat).length
      = 6 * (2 + n_lon * (n_lat - 1)) ∧
    (∀ p ∈ set_vertexes_write_offsets n_lon n_lat,
      p < 6 * (2 + n_lon * (n_lat - 1))) ∧
    (∀ p ∈ set_normals_access_offsets n_lon n_lat,
      p < 6 * (2 + n_lon * (n_lat - 1))) := by
  have hv : m_n_vertexes n_lon n_lat = 2 + n_lon * (n_lat - 1) := by
    unfold m_n_vertexes; omega
  refine ⟨by rw [set_vertexes_length, hv], ?_, ?_⟩
  · intro p hp
    simp only [set_vertexes_write_offsets, List.mem_append, List.mem_cons,
      List.mem_flatMap, List.mem_range, List.not_mem_nil, or_false] at hp
    rw [Nat.mul_comm (n_lat - 1) n_lon] at hp
    generalize n_lon * (n_lat - 1) = q at hp ⊢
    rcases hp with hp | ⟨t, ht, hp⟩ | hp <;> omega
  · intro p hp
    simp only [set_normals_access_offsets, List.mem_flatMap, List.mem_range,
      List.mem_cons, List.not_mem_nil, or_false] at hp
    obtain ⟨i, hi, h⟩ := hp
    rw [hv] at hi
    generalize n_lon * (n_lat - 1) = q at hi ⊢
    omega

/-- Witness for C9 at `radius = 1`, `longitudeCount = 3`, `latitudeCount = 2`. -/
theorem claim_C9_no_oob_witness :
    3 ≤ 3 ∧ 2 ≤ 2 ∧
    ((set_vertexes (1:ℝ) 3 2).length = 6 * (2 + 3 * (2 - 1)) ∧
     (∀ p ∈ set_vertexes_write_offsets 3 2, p < 6 * (2 + 3 * (2 - 1))) ∧
     (∀ p ∈ set_normals_access_offsets 3 2, p < 6 * (2 + 3 * (2 - 1)))) :=
  ⟨le_refl 3, le_refl 2,
   claim_C9_no_oob (r := 1) (le_refl 3) (le_refl 2)⟩

/-! ### Buffer entry extraction -/

lemma getElem?_flatMap_range {α : Type*} (f : ℕ → List α) (B : ℕ)
    (hB : ∀ i, (f i).length = B) (m s i c : ℕ) (hi : i < m) (hc : c < B) :
    ((List.range' s m).flatMap f)[B * i + c]? = (f (s + i))[c]? := by
  induction m generalizing s i with
  | zero => omega
  | succ m ih =>
    rw [List.range'_succ, List.flatMap_cons, List.getElem?_append]
    cases i with
    | zero =>
      rw [Nat.mul_zero, Nat.zero_add, if_pos (by rw [hB]; exact hc),
        Nat.add_zero]
    | succ i =>
      have hge : B ≤ B * (i + 1) + c :=
        le_trans (Nat.le_mul_of_pos_right B (by omega)) (Nat.le_add_right _ _)
      rw [if_neg (not_lt.mpr (by rw [hB]; exact hge)), hB,
        show B * (i + 1) + c - B = B * i + c by
          rw [Nat.mul_succ, show B * i + B + c = B + (B * i + c) by ring,
            Nat.add_sub_cancel_left],
        ih (s + 1) i (by omega),
        show s + 1 + i = s + (i + 1) by omega]

lemma set_vertexes_north_get (r : ℝ) (n_lon n_lat c : ℕ) (hc : c < 6) :
    (set_vertexes r n_lon n_lat)[c]? = [0, r, 0, 0, 0, 0][c]? := by
  unfold set_vertexes
  rw [List.getElem?_append, if_pos (by rw [List.length_append]; simp; omega),
    List.getElem?_append, if_pos (by simpa using hc)]

lemma set_vertexes_ring_get (r : ℝ) {n_lon n_lat k j : ℕ} (c : ℕ)
    (hk1 : 1 ≤ k) (hk2 : k < n_lat) (hj : j < n_lon) (hc : c < 6) :
    (set_vertexes r n_lon n_lat)[6 * (1 + (k - 1) * n_lon + j) + c]? =
    (ringSlot r n_lon n_lat k j)[c]? := by
  have hw : 6 * j + c < n_lon * 6 := by omega
  have hmid : (n_lon * 6) * (k - 1) + (6 * j + c)
      < (n_lat - 1) * (n_lon * 6) :=
    calc (n_lon * 6) * (k - 1) + (6 * j + c)
        < (n_lon * 6) * (k - 1) + n_lon * 6 := by omega
      _ = (n_lon * 6) * (k - 1 + 1) := by ring
      _ ≤ (n_lon * 6) * (n_lat - 1) := Nat.mul_le_mul_left _ (by omega)
      _ = (n_lat - 1) * (n_lon * 6) := Nat.mul_comm _ _
  unfold set_vertexes
  rw [show 6 * (1 + (k - 1) * n_lon + j) + c
        = 6 + ((n_lon * 6) * (k - 1) + (6 * j + c)) by ring,
    List.getElem?_append, if_pos (by
      rw [List.length_append, mid_length]
      simp only [List.length_cons, List.length_nil]
      omega),
    List.getElem?_append_right (by simp),
    show ∀ x : ℕ, 6 + x - [(0:ℝ), r, 0, 0, 0, 0].length = x from
      fun x => by simp,
    getElem?_flatMap_range (ringBlock r n_lon n_lat) (n_lon * 6)
      (ringBlock_length r n_lon n_lat) (n_lat - 1) 1 (k - 1)
      (6 * j + c) (by omega) hw,
    show (1:ℕ) + (k - 1) = k by omega, ringBlock, List.range_eq_range',
    getElem?_flatMap_range (ringSlot r n_lon n_lat k) 6
      (ringSlot_length r n_lon n_lat k) n_lon 0 j c hj hc,
    Nat.zero_add]

lemma set_vertexes_south_get (r : ℝ) (n_lon n_lat : ℕ) (c : ℕ) (hc : c < 6) :
    (set_vertexes r n_lon n_lat)[6 * (n_lon * (n_lat - 1) + 1) + c]? =
    [0, -r, 0, 0, 0, 0][c]? := by
  unfold set_vertexes
  rw [List.getElem?_append_right (by
      rw [List.length_append, mid_length]
      simp only [List.length_cons, List.length_nil]
      calc 6 + (n_lat - 1) * (n_lon * 6) + 0
          ≤ 6 * (n_lon * (n_lat - 1) + 1) + c := by
            rw [show 6 * (n_lon * (n_lat - 1) + 1)
                  = 6 + (n_lat - 1) * (n_lon * 6) by ring]
            omega
        _ = 6 * (n_lon * (n_lat - 1) + 1) + c := rfl)]
  congr 1
  rw [List.length_append, mid_length]
  simp only [List.length_cons, List.length_nil]
  rw [show 6 * (n_lon * (n_lat - 1) + 1) + c
        = (6 + (n_lat - 1) * (n_lon * 6)) + c by ring]
  omega

/-! ### set_normals extraction -/

lemma normStep_getElem?_pos {b : List ℝ} {i p : ℕ} (hp : p % 6 < 3) :
    (normStep b i)[p]? = b[p]? := by
  unfold normStep m_n_coords
  rw [List.getElem?_set_ne (by omega), List.getElem?_set_ne (by omega),
    List.getElem?_set_ne (by omega)]

lemma foldl_normStep_getElem?_pos (l : List ℕ) (b : List ℝ) {p : ℕ}
    (hp : p % 6 < 3) : (l.foldl normStep b)[p]? = b[p]? := by
  induction l generalizing b with
  | nil => rfl
  | cons x xs ih => rw [List.foldl_cons, ih, normStep_getElem?_pos hp]

lemma normStep_getElem?_other {b : List ℝ} {i j c : ℕ} (hij : j ≠ i)
    (hc : c < 3) : (normStep b j)[6 * i + 3 + c]? = b[6 * i + 3 + c]? := by
  unfold normStep m_n_coords
  rw [List.getElem?_set_ne (by omega), List.getElem?_set_ne (by omega),
    List.getElem?_set_ne (by omega)]

lemma foldl_normStep_getElem?_other (l : List ℕ) (b : List ℝ) {i c : ℕ}
    (hi : i ∉ l) (hc : c < 3) :
    (l.foldl normStep b)[6 * i + 3 + c]? = b[6 * i + 3 + c]? := by
  induction l generalizing b with
  | nil => rfl
  | cons x xs ih =>
    have hxi : x ≠ i := fun h => hi (by rw [← h]; exact List.mem_cons_self x xs)
    have hxs : i ∉ xs := fun h => hi (List.mem_cons_of_mem x h)
    rw [List.foldl_cons, ih _ hxs, normStep_getElem?_other hxi hc]

lemma normStep_write {b : List ℝ} {i : ℕ} (hlen : 6 * i + 5 < b.length) :
    (normStep b i)[6 * i + 3]?
      = some (glm_normalize (b.getD (6 * i) 0, b.getD (6 * i + 1) 0,
          b.getD (6 * i + 2) 0)).1 ∧
    (normStep b i)[6 * i + 4]?
      = some (glm_normalize (b.getD (6 * i) 0, b.getD (6 * i + 1) 0,
          b.getD (6 * i + 2) 0)).2.1 ∧
    (normStep b i)[6 * i + 5]?
      = some (glm_normalize (b.getD (6 * i) 0, b.getD (6 * i + 1) 0,
          b.getD (6 * i + 2) 0)).2.2 := by
  unfold normStep m_n_coords
  refine ⟨?_, ?_, ?_⟩
  · rw [List.getElem?_set_ne (by omega), List.getElem?_set_ne (by omega),
      List.getElem?_set_self (by omega)]
  · rw [List.getElem?_set_ne (by omega),
      List.getElem?_set_self (by rw [List.length_set]; omega)]
  · rw [List.getElem?_set_self
      (by rw [List.length_set, List.length_set]; omega)]

lemma range_split (i n : ℕ) (hi : i < n) :
    List.range n = List.range' 0 i ++ i :: List.range' (i + 1) (n - i - 1) := by
  obtain ⟨t, ht⟩ : ∃ t, n - i = t + 1 := ⟨n - i - 1, by omega⟩
  have h2 : n - i - 1 = t := by omega
  rw [List.range_eq_range',
    show List.range' 0 n
        = List.range' 0 i ++ List.range' (0 + 1 * i) (n - i) by
      rw [List.range'_append]; congr 1; omega,
    ht, List.range'_succ]
  norm_num

lemma set_normals_normal_getElem? (b : List ℝ) (nV i : ℕ) (hi : i < nV)
    (hlen : 6 * i + 5 < b.length) :
    (set_normals b nV)[6 * i + 3]?
      = some (glm_normalize (b.getD (6 * i) 0, b.getD (6 * i + 1) 0,
          b.getD (6 * i + 2) 0)).1 ∧
    (set_normals b nV)[6 * i + 4]?
      = some (glm_normalize (b.getD (6 * i) 0, b.getD (6 * i + 1) 0,
          b.getD (6 * i + 2) 0)).2.1 ∧
    (set_normals b nV)[6 * i + 5]?
      = some (glm_normalize (b.getD (6 * i) 0, b.getD (6 * i + 1) 0,
          b.getD (6 * i + 2) 0)).2.2 := by
  unfold set_normals
  rw [range_split i nV hi, List.foldl_append, List.foldl_cons]
  set b1 := (List.range' 0 i).foldl normStep b with hb1
  have hb1pos : ∀ c : ℕ, c < 3 → b1.getD (6 * i + c) 0 = b.getD (6 * i + c) 0 := by
    intro c hc
    rw [List.getD_eq_getElem?_getD, List.getD_eq_getElem?_getD,
      foldl_normStep_getElem?_pos _ _ (by omega)]
  have hb1len : b1.length = b.length := foldl_normStep_length _ _
  have hnotmem : i ∉ List.range' (i + 1) (nV - i - 1) := by
    intro h
    rw [List.mem_range'] at h
    omega
  have hw := normStep_write (b := b1) (i := i) (by omega)
  have h0 := hb1pos 0 (by omega)
  have h1 := hb1pos 1 (by omega)
  have h2 := hb1pos 2 (by omega)
  rw [show 6 * i + 0 = 6 * i by omega] at h0
  refine ⟨?_, ?_, ?_⟩
  · rw [show 6 * i + 3 = 6 * i + 3 + 0 by omega,
      foldl_normStep_getElem?_other _ _ hnotmem (by omega),
      show 6 * i + 3 + 0 = 6 * i + 3 by omega, hw.1, h0, h1, h2]
  · rw [show 6 * i + 4 = 6 * i + 3 + 1 by omega,
      foldl_normStep_getElem?_other _ _ hnotmem (by omega),
      show 6 * i + 3 + 1 = 6 * i + 4 by omega, hw.2.1, h0, h1, h2]
  · rw [show 6 * i + 5 = 6 * i + 3 + 2 by omega,
      foldl_normStep_getElem?_other _ _ hnotmem (by omega),
      show 6 * i + 3 + 2 = 6 * i + 5 by omega, hw.2.2, h0, h1, h2]

lemma sphere_vertexes_pos_getElem? (r : ℝ) (n_lon n_lat i : ℕ) (c : ℕ)
    (hc : c < 3) :
    (sphere_vertexes r n_lon n_lat)[6 * i + c]?
      = (set_vertexes r n_lon n_lat)[6 * i + c]? := by
  unfold sphere_vertexes set_normals
  exact foldl_normStep_getElem?_pos _ _ (by omega)

/-! ### Position and normal values -/

lemma glm_normalize_pole (r : ℝ) (hr : 0 < r) :
    glm_normalize (0, r, 0) = (0, 1, 0) ∧
    glm_normalize (0, -r, 0) = (0, -1, 0) := by
  have hd1 : dot3 (0, r, 0) (0, r, 0) = r ^ 2 := by unfold dot3; ring
  have hd2 : dot3 (0, -r, 0) (0, -r, 0) = r ^ 2 := by unfold dot3; ring
  unfold glm_normalize
  rw [hd1, hd2, Real.sqrt_sq hr.le]
  constructor <;> refine Prod.ext (by simp) (Prod.ext ?_ (by simp))
  · exact div_self hr.ne'
  · simp [neg_div, div_self hr.ne']

lemma glm_normalize_ring (r θ φ : ℝ) (hr : 0 < r) :
    glm_normalize (r * Real.cos θ * Real.sin φ, r * Real.cos φ,
        r * Real.sin θ * Real.sin φ)
      = (Real.cos θ * Real.sin φ, Real.cos φ, Real.sin θ * Real.sin φ) := by
  have hd : dot3 (r * Real.cos θ * Real.sin φ, r * Real.cos φ,
      r * Real.sin θ * Real.sin φ) (r * Real.cos θ * Real.sin φ,
      r * Real.cos φ, r * Real.sin θ * Real.sin φ) = r ^ 2 := by
    unfold dot3
    linear_combination (r ^ 2 * Real.sin φ ^ 2) * Real.sin_sq_add_cos_sq θ
      + r ^ 2 * Real.sin_sq_add_cos_sq φ
  unfold glm_normalize
  rw [hd, Real.sqrt_sq hr.le]
  refine Prod.ext ?_ (Prod.ext ?_ ?_) <;> field_simp <;> ring

lemma sv_triple_north (r : ℝ) (n_lon n_lat : ℕ) :
    (set_vertexes r n_lon n_lat).getD 0 0 = 0 ∧
    (set_vertexes r n_lon n_lat).getD 1 0 = r ∧
    (set_vertexes r n_lon n_lat).getD 2 0 = 0 := by
  refine ⟨?_, ?_, ?_⟩ <;>
    rw [List.getD_eq_getElem?_getD] <;>
    [rw [set_vertexes_north_get r n_lon n_lat 0 (by omega)];
     rw [set_vertexes_north_get r n_lon n_lat 1 (by omega)];
     rw [set_vertexes_north_get r n_lon n_lat 2 (by omega)]] <;> rfl

lemma sv_triple_ring (r : ℝ) {n_lon n_lat k j : ℕ} (hk1 : 1 ≤ k)
    (hk2 : k < n_lat) (hj : j < n_lon) :
    (set_vertexes r n_lon n_lat).getD (6 * (1 + (k - 1) * n_lon + j)) 0
      = r * Real.cos (j * (2 * Real.pi / n_lon)) *
          Real.sin (k * (Real.pi / n_lat)) ∧
    (set_vertexes r n_lon n_lat).getD (6 * (1 + (k - 1) * n_lon + j) + 1) 0
      = r * Real.cos (k * (Real.pi / n_lat)) ∧
    (set_vertexes r n_lon n_lat).getD (6 * (1 + (k - 1) * n_lon + j) + 2) 0
      = r * Real.sin (j * (2 * Real.pi / n_lon)) *
          Real.sin (k * (Real.pi / n_lat)) := by
  refine ⟨?_, ?_, ?_⟩
  · rw [List.getD_eq_getElem?_getD,
      show 6 * (1 + (k - 1) * n_lon + j) = 6 * (1 + (k - 1) * n_lon + j) + 0
        from rfl,
      set_vertexes_ring_get r 0 hk1 hk2 hj (by omega)]
    rfl
  · rw [List.getD_eq_getElem?_getD,
      set_vertexes_ring_get r 1 hk1 hk2 hj (by omega)]
    rfl
  · rw [List.getD_eq_getElem?_getD,
      set_vertexes_ring_get r 2 hk1 hk2 hj (by omega)]
    rfl

lemma sv_triple_south (r : ℝ) (n_lon n_lat : ℕ) :
    (set_vertexes r n_lon n_lat).getD (6 * (n_lon * (n_lat - 1) + 1)) 0 = 0 ∧
    (set_vertexes r n_lon n_lat).getD (6 * (n_lon * (n_lat - 1) + 1) + 1) 0
      = -r ∧
    (set_vertexes r n_lon n_lat).getD (6 * (n_lon * (n_lat - 1) + 1) + 2) 0
      = 0 := by
  refine ⟨?_, ?_, ?_⟩
  · rw [List.getD_eq_getElem?_getD,
      show 6 * (n_lon * (n_lat - 1) + 1)
        = 6 * (n_lon * (n_lat - 1) + 1) + 0 from rfl,
      set_vertexes_south_get r n_lon n_lat 0 (by omega)]
    rfl
  · rw [List.getD_eq_getElem?_getD,
      set_vertexes_south_get r n_lon n_lat 1 (by omega)]
    rfl
  · rw [List.getD_eq_getElem?_getD,
      set_vertexes_south_get r n_lon n_lat 2 (by omega)]
    rfl

lemma position_of_eq (r : ℝ) (n_lon n_lat i : ℕ) :
    position_of r n_lon n_lat i
      = ((set_vertexes r n_lon n_lat).getD (6 * i) 0,
         (set_vertexes r n_lon n_lat).getD (6 * i + 1) 0,
         (set_vertexes r n_lon n_lat).getD (6 * i + 2) 0) := by
  unfold position_of m_n_coords
  refine Prod.ext ?_ (Prod.ext ?_ ?_) <;>
    simp only [List.getD_eq_getElem?_getD]
  · rw [show 6 * i = 6 * i + 0 from rfl,
      sphere_vertexes_pos_getElem? r n_lon n_lat i 0 (by omega)]
  · rw [sphere_vertexes_pos_getElem? r n_lon n_lat i 1 (by omega)]
  · rw [sphere_vertexes_pos_getElem? r n_lon n_lat i 2 (by omega)]

lemma normal_of_eq (r : ℝ) (n_lon n_lat i : ℕ)
    (hi : i < m_n_vertexes n_lon n_lat) :
    normal_of r n_lon n_lat i
      = glm_normalize ((set_vertexes r n_lon n_lat).getD (6 * i) 0,
          (set_vertexes r n_lon n_lat).getD (6 * i + 1) 0,
          (set_vertexes r n_lon n_lat).getD (6 * i + 2) 0) := by
  have hlen : 6 * i + 5 < (set_vertexes r n_lon n_lat).length := by
    rw [set_vertexes_length]
    omega
  have h := set_normals_normal_getElem? (set_vertexes r n_lon n_lat)
    (m_n_vertexes n_lon n_lat) i hi hlen
  unfold normal_of sphere_vertexes m_n_coords
  refine Prod.ext ?_ (Prod.ext ?_ ?_) <;>
    simp only [List.getD_eq_getElem?_getD]
  · rw [h.1]; simp [List.getD_eq_getElem?_getD]
  · rw [h.2.1]; simp [List.getD_eq_getElem?_getD]
  · rw [h.2.2]; simp [List.getD_eq_getElem?_getD]

/-! ### Claims C2, C3, C4 -/

/-- C2: vertices are emitted north pole first (buffer slot 0), then the
rings in order of increasing polar angle `φ = k·(π/latitudeCount)` for
`k = 1 .. latitudeCount−1`, each in order of increasing azimuth
`θ = j·(2π/longitudeCount)` for `j = 0 .. longitudeCount−1` (the ring
vertex `(k, j)` occupying slot `1 + (k−1)·longitudeCount + j`), then the
south pole last (slot `longitudeCount·(latitudeCount−1) + 1`); and the ring
vertex at that index has position
`(r·cos θ·sin φ, r·cos φ, r·sin θ·sin φ)`. -/
theorem claim_C2_emission_order {r : ℝ} {n_lon n_lat : ℕ} (hr : 0 < r)
    (h3 : 3 ≤ n_lon) (h2 : 2 ≤ n_lat) :
    ((set_vertexes r n_lon n_lat).getD (6 * 0) 0 = 0 ∧
     (set_vertexes r n_lon n_lat).getD (6 * 0 + 1) 0 = r ∧
     (set_vertexes r n_lon n_lat).getD (6 * 0 + 2) 0 = 0) ∧
    (∀ k j, 1 ≤ k → k ≤ n_lat - 1 → j < n_lon →
      (set_vertexes r n_lon n_lat).getD
          (6 * (1 + (k - 1) * n_lon + j)) 0
        = r * Real.cos (j * (2 * Real.pi / n_lon)) *
            Real.sin (k * (Real.pi / n_lat)) ∧
      (set_vertexes r n_lon n_lat).getD
          (6 * (1 + (k - 1) * n_lon + j) + 1) 0
        = r * Real.cos (k * (Real.pi / n_lat)) ∧
      (set_vertexes r n_lon n_lat).getD
          (6 * (1 + (k - 1) * n_lon + j) + 2) 0
        = r * Real.sin (j * (2 * Real.pi / n_lon)) *
            Real.sin (k * (Real.pi / n_lat))) ∧
    ((set_vertexes r n_lon n_lat).getD
        (6 * (n_lon * (n_lat - 1) + 1)) 0 = 0 ∧
     (set_vertexes r n_lon n_lat).getD
        (6 * (n_lon * (n_lat - 1) + 1) + 1) 0 = -r ∧
     (set_vertexes r n_lon n_lat).getD
        (6 * (n_lon * (n_lat - 1) + 1) + 2) 0 = 0) := by
  refine ⟨by simpa using sv_triple_north r n_lon n_lat, ?_,
    sv_triple_south r n_lon n_lat⟩
  intro k j hk1 hk2 hj
  exact sv_triple_ring r hk1 (by omega) hj

/-- Witness for C2 at `radius = 1`, `longitudeCount = 4`,
`latitudeCount = 2`, ring vertex `k = 1`, `j = 1`. -/
theorem claim_C2_emission_order_witness :
    (0:ℝ) < 1 ∧ 3 ≤ 4 ∧ 2 ≤ 2 ∧ 1 ≤ 1 ∧ 1 ≤ 2 - 1 ∧ 1 < 4 ∧
    ((set_vertexes (1:ℝ) 4 2).getD (6 * (1 + (1 - 1) * 4 + 1)) 0
        = 1 * Real.cos (1 * (2 * Real.pi / 4)) *
            Real.sin (1 * (Real.pi / 2)) ∧
     (set_vertexes (1:ℝ) 4 2).getD (6 * (1 + (1 - 1) * 4 + 1) + 1) 0
        = 1 * Real.cos (1 * (Real.pi / 2)) ∧
     (set_vertexes (1:ℝ) 4 2).getD (6 * (1 + (1 - 1) * 4 + 1) + 2) 0
        = 1 * Real.sin (1 * (2 * Real.pi / 4)) *
            Real.sin (1 * (Real.pi / 2))) :=
by
  have h := (claim_C2_emission_order (r := 1) (by norm_num)
    (by norm_num : (3:ℕ) ≤ 4) (le_refl 2)).2.1 1 1 (le_refl 1)
    (by norm_num) (by norm_num)
  push_cast at h
  exact ⟨by norm_num, by norm_num, le_refl 2, le_refl 1, by norm_num,
    by norm_num, h⟩

/-- C4: vertex 0 has position `(0, radius, 0)` and normal `(0, 1, 0)`, and
the last vertex (index `longitudeCount·(latitudeCount−1) + 1`) has position
`(0, −radius, 0)` and normal exactly `(0, −1, 0)`, for every valid
radius/longitudeCount/latitudeCount combination. -/
theorem claim_C4_poles {r : ℝ} {n_lon n_lat : ℕ} (hr : 0 < r)
    (h3 : 3 ≤ n_lon) (h2 : 2 ≤ n_lat) :
    position_of r n_lon n_lat 0 = (0, r, 0) ∧
    normal_of r n_lon n_lat 0 = (0, 1, 0) ∧
    position_of r n_lon n_lat (n_lon * (n_lat - 1) + 1) = (0, -r, 0) ∧
    normal_of r n_lon n_lat (n_lon * (n_lat - 1) + 1) = (0, -1, 0) := by
  have hnv : n_lon * (n_lat - 1) + 1 < m_n_vertexes n_lon n_lat := by
    unfold m_n_vertexes
    omega
  have hN := sv_triple_north r n_lon n_lat
  have hS := sv_triple_south r n_lon n_lat
  refine ⟨?_, ?_, ?_, ?_⟩
  · rw [position_of_eq, Nat.mul_zero, hN.1, hN.2.1, hN.2.2]
  · rw [normal_of_eq r n_lon n_lat 0 (by unfold m_n_vertexes; omega),
      Nat.mul_zero, hN.1, hN.2.1, hN.2.2]
    exact (glm_normalize_pole r hr).1
  · rw [position_of_eq, hS.1, hS.2.1, hS.2.2]
  · rw [normal_of_eq r n_lon n_lat _ hnv, hS.1, hS.2.1, hS.2.2]
    exact (glm_normalize_pole r hr).2

/-- Witness for C4 at `radius = 2`, `longitudeCount = 3`,
`latitudeCount = 2`. -/
theorem claim_C4_poles_witness :
    (0:ℝ) < 2 ∧ 3 ≤ 3 ∧ 2 ≤ 2 ∧
    (position_of 2 3 2 0 = (0, 2, 0) ∧
     normal_of 2 3 2 0 = (0, 1, 0) ∧
     position_of 2 3 2 (3 * (2 - 1) + 1) = (0, -2, 0) ∧
     normal_of 2 3 2 (3 * (2 - 1) + 1) = (0, -1, 0)) :=
  ⟨by norm_num, le_refl 3, le_refl 2,
   claim_C4_poles (r := 2) (by norm_num) (le_refl 3) (le_refl 2)⟩

lemma dot3_ring_normal (θ φ : ℝ) :
    dot3 (Real.cos θ * Real.sin φ, Real.cos φ, Real.sin θ * Real.sin φ)
      (Real.cos θ * Real.sin φ, Real.cos φ, Real.sin θ * Real.sin φ) = 1 := by
  unfold dot3
  linear_combination Real.sin φ ^ 2 * Real.sin_sq_add_cos_sq θ
    + Real.sin_sq_add_cos_sq φ

lemma ring_index_decomp {n_lon n_lat i : ℕ} (hn : 0 < n_lon) (h1 : 1 ≤ i)
    (h2 : i < n_lon * (n_lat - 1) + 1) :
    ∃ k j, 1 ≤ k ∧ k < n_lat ∧ j < n_lon ∧ i = 1 + (k - 1) * n_lon + j := by
  obtain ⟨D, hD⟩ : ∃ D, (i - 1) / n_lon = D := ⟨_, rfl⟩
  obtain ⟨M, hM⟩ : ∃ M, (i - 1) % n_lon = M := ⟨_, rfl⟩
  have hdm := Nat.div_add_mod (i - 1) n_lon
  rw [hD, hM] at hdm
  have hMlt : M < n_lon := by rw [← hM]; exact Nat.mod_lt _ hn
  have hlt : D < n_lat - 1 := by
    rw [← hD]; exact Nat.div_lt_of_lt_mul (by omega)
  refine ⟨D + 1, M, by omega, by omega, hMlt, ?_⟩
  rw [Nat.add_sub_cancel, Nat.mul_comm]
  omega

/-- C3: after construction, for every vertex of the mesh, the stored normal
(floats 3..5) equals the vertex's position (floats 0..2) divided by its
Euclidean length, and every stored normal has length exactly 1 (squared
norm 1); this holds for all valid radius, longitudeCount, latitudeCount. -/
theorem claim_C3_unit_normals {r : ℝ} {n_lon n_lat : ℕ} (hr : 0 < r)
    (h3 : 3 ≤ n_lon) (h2 : 2 ≤ n_lat) (i : ℕ)
    (hi : i < m_n_vertexes n_lon n_lat) :
    normal_of r n_lon n_lat i
      = ((position_of r n_lon n_lat i).1
           / Real.sqrt (dot3 (position_of r n_lon n_lat i)
               (position_of r n_lon n_lat i)),
         (position_of r n_lon n_lat i).2.1
           / Real.sqrt (dot3 (position_of r n_lon n_lat i)
               (position_of r n_lon n_lat i)),
         (position_of r n_lon n_lat i).2.2
           / Real.sqrt (dot3 (position_of r n_lon n_lat i)
               (position_of r n_lon n_lat i))) ∧
    dot3 (normal_of r n_lon n_lat i) (normal_of r n_lon n_lat i) = 1 := by
  constructor
  · rw [normal_of_eq r n_lon n_lat i hi, position_of_eq]
    rfl
  · rw [normal_of_eq r n_lon n_lat i hi]
    rcases Nat.lt_or_ge i 1 with h0 | hge1
    · have hz : i = 0 := by omega
      subst hz
      have hN := sv_triple_north r n_lon n_lat
      simp only [Nat.mul_zero, Nat.zero_add]
      rw [hN.1, hN.2.1, hN.2.2, (glm_normalize_pole r hr).1]
      norm_num [dot3]
    · rcases Nat.lt_or_ge i (n_lon * (n_lat - 1) + 1) with hmid | hend
      · obtain ⟨k, j, hk1, hk2, hj, hij⟩ :=
          ring_index_decomp (by omega) hge1 hmid
        subst hij
        have hT := sv_triple_ring r hk1 hk2 hj
        rw [hT.1, hT.2.1, hT.2.2, glm_normalize_ring r _ _ hr,
          dot3_ring_normal]
      · have hieq : i = n_lon * (n_lat - 1) + 1 := by
          unfold m_n_vertexes at hi
          omega
        subst hieq
        have hS := sv_triple_south r n_lon n_lat
        rw [hS.1, hS.2.1, hS.2.2, (glm_normalize_pole r hr).2]
        norm_num [dot3]

/-- Witness for C3 at `radius = 1`, `longitudeCount = 3`,
`latitudeCount = 2`, vertex `i = 1` (a ring vertex). -/
theorem claim_C3_unit_normals_witness :
    (0:ℝ) < 1 ∧ 3 ≤ 3 ∧ 2 ≤ 2 ∧ 1 < m_n_vertexes 3 2 ∧
    (normal_of 1 3 2 1
      = ((position_of 1 3 2 1).1
           / Real.sqrt (dot3 (position_of 1 3 2 1) (position_of 1 3 2 1)),
         (position_of 1 3 2 1).2.1
           / Real.sqrt (dot3 (position_of 1 3 2 1) (position_of 1 3 2 1)),
         (position_of 1 3 2 1).2.2
           / Real.sqrt (dot3 (position_of 1 3 2 1) (position_of 1 3 2 1))) ∧
     dot3 (normal_of 1 3 2 1) (normal_of 1 3 2 1) = 1) :=
  ⟨by norm_num, le_refl 3, le_refl 2, by norm_num [m_n_vertexes],
   claim_C3_unit_normals (r := 1) (by norm_num) (le_refl 3) (le_refl 2) 1
     (by norm_num [m_n_vertexes])⟩

/-! ### Claim C5: index bounds -/

lemma northTriples_mem_le {n : ℕ} (hn : 1 ≤ n) {t : ℕ × ℕ × ℕ}
    (ht : t ∈ northTriples n) : t.1 ≤ n ∧ t.2.1 ≤ n ∧ t.2.2 ≤ n := by
  unfold northTriples at ht
  simp only [List.mem_append, List.mem_map, List.mem_range',
    List.mem_singleton] at ht
  rcases ht with ⟨i, ⟨z, hz, rfl⟩, rfl⟩ | rfl <;>
    refine ⟨?_, ?_, ?_⟩ <;> dsimp only <;> omega

lemma bandTriples_mem_le {n i_lat : ℕ} (hn : 1 ≤ n) {t : ℕ × ℕ × ℕ}
    (ht : t ∈ bandTriples n i_lat) :
    t.1 ≤ (i_lat + 2) * n ∧ t.2.1 ≤ (i_lat + 2) * n ∧
    t.2.2 ≤ (i_lat + 2) * n := by
  have hexp : (i_lat + 2) * n = i_lat * n + 2 * n := by ring
  unfold bandTriples at ht
  simp only [List.mem_append, List.mem_flatMap, List.mem_range',
    List.mem_cons, List.not_mem_nil, or_false] at ht
  rcases ht with ⟨i, ⟨z, hz, rfl⟩, rfl | rfl⟩ | rfl | rfl <;>
    refine ⟨?_, ?_, ?_⟩ <;> dsimp only <;> omega

lemma southTriples_mem_le {n n_lat : ℕ} {t : ℕ × ℕ × ℕ}
    (ht : t ∈ southTriples n n_lat) :
    t.1 ≤ indice_last n n_lat ∧ t.2.1 ≤ indice_last n n_lat ∧
    t.2.2 ≤ indice_last n n_lat := by
  unfold southTriples at ht
  simp only [List.mem_append, List.mem_map, List.mem_range',
    List.mem_singleton] at ht
  rcases ht with ⟨i, ⟨z, hz, rfl⟩, rfl⟩ | rfl <;>
    exact ⟨le_refl _, Nat.sub_le _ _, Nat.sub_le _ _⟩

/-- C5: for every `longitudeCount ≥ 3` and `2 ≤ latitudeCount < 2^32`,
every value in the generated index list is strictly less than the vertex
count `2 + longitudeCount·(latitudeCount−1)` — across the north cap, all
body bands including their cycle-closing triangles, and the south cap. -/
theorem claim_C5_index_bounds {n_lon n_lat : ℕ} (h3 : 3 ≤ n_lon)
    (h2 : 2 ≤ n_lat) (hlt : n_lat < U32) :
    ∀ x ∈ set_indices n_lon n_lat, x < 2 + n_lon * (n_lat - 1) := by
  intro x hx
  unfold set_indices at hx
  rw [List.mem_flatMap] at hx
  obtain ⟨t, ht, hxt⟩ := hx
  have hxval : x = t.1 ∨ x = t.2.1 ∨ x = t.2.2 := by
    simpa [triFlat] using hxt
  have hmono : n_lon * 1 ≤ n_lon * (n_lat - 1) :=
    Nat.mul_le_mul_left _ (by omega)
  rw [Nat.mul_one] at hmono
  rw [List.mem_append, List.mem_append] at ht
  rcases ht with (htN | htB) | htS
  · have hb := northTriples_mem_le (by omega) htN
    rcases hxval with h | h | h <;> omega
  · unfold bodyTriples at htB
    rw [List.mem_flatMap] at htB
    obtain ⟨i_lat, hi, hband⟩ := htB
    rw [List.mem_range, bodyBandCount_eq h2 hlt] at hi
    have hb := bandTriples_mem_le (by omega) hband
    have hstep : (i_lat + 2) * n_lon ≤ (n_lat - 1) * n_lon :=
      Nat.mul_le_mul_right _ (by omega)
    rw [Nat.mul_comm (n_lat - 1) n_lon] at hstep
    rcases hxval with h | h | h <;> omega
  · have hb := southTriples_mem_le htS
    unfold indice_last at hb
    rcases hxval with h | h | h <;> omega

/-- Witness for C5 at `longitudeCount = 3`, `latitudeCount = 3`, index
entry `x = 0` (the first entry of the list). -/
theorem claim_C5_index_bounds_witness :
    3 ≤ 3 ∧ 2 ≤ 3 ∧ 3 < U32 ∧ (0 : ℕ) ∈ set_indices 3 3 ∧
    (0 : ℕ) < 2 + 3 * (3 - 1) :=
  ⟨le_refl 3, by norm_num, by norm_num [U32], by decide,
   claim_C5_index_bounds (le_refl 3) (by norm_num) (by norm_num [U32]) 0
     (by decide)⟩

/-! ### Claim C7: quad diagonal convention -/

/-- Modelled from the spec's words, for comparison with the code (claim C7):
for each body band and each quad `j` (including the wraparound quad, handled
by index arithmetic modulo `longitudeCount`), the split into the two
triangles `(p0, p1, p2)` and `(p1, p3, p2)`, where `p0`/`p1` are the upper
ring vertices at azimuth `j`/`(j+1) mod n` and `p2`/`p3` the lower ring
vertices at the same azimuths. -/
def specBandTriples (n i_lat : ℕ) : List (ℕ × ℕ × ℕ) :=
  (List.range n).flatMap fun j =>
    [(1 + i_lat * n + j, 1 + i_lat * n + ((j + 1) % n),
      (1 + i_lat * n + j) + n),
     (1 + i_lat * n + ((j + 1) % n), (1 + i_lat * n + ((j + 1) % n)) + n,
      (1 + i_lat * n + j) + n)]

/-- Modelled from the spec's words: all body bands split per
`specBandTriples`. -/
def specBodyTriples (n n_lat : ℕ) : List (ℕ × ℕ × ℕ) :=
  (List.range (bodyBandCount n_lat)).flatMap (specBandTriples n)

/-- Counterexample to C7 at `longitudeCount = 3`, `latitudeCount = 3`: the
spec-mandated wraparound triangle `(1, 4, 6)` (split along the same
diagonal, azimuth arithmetic mod 3) is not produced by the code — not even
up to vertex permutation — and the code instead produces `(1, 4, 3)`, a
triangle across the opposite diagonal, which the spec split never
produces. -/
theorem claim_C7_diagonal_counterexample :
    (1, 4, 6) ∈ specBodyTriples 3 3 ∧
    (∀ t ∈ bodyTriples 3 3,
      ({t.1, t.2.1, t.2.2} : Finset ℕ) ≠ ({1, 4, 6} : Finset ℕ)) ∧
    (1, 4, 3) ∈ bodyTriples 3 3 ∧
    (∀ t ∈ specBodyTriples 3 3,
      ({t.1, t.2.1, t.2.2} : Finset ℕ) ≠ ({1, 3, 4} : Finset ℕ)) := by
  decide

/-- C7 as amended: in every body band, each of the `longitudeCount − 1`
non-wraparound quads is split into exactly the two spec triangles
`(p0, p1, p2)` and `(p1, p3, p2)` (diagonal from upper azimuth `j+1` to
lower azimuth `j`), but the wraparound quad is split along the OTHER
diagonal: the code emits `(upper₀, lower₀, upper_{n−1})` and
`(upper_{n−1}, lower₀, lower_{n−1})`, whose shared edge joins the upper
azimuth `n−1` corner to the lower azimuth `0` corner. -/
theorem claim_C7_amended {n_lon : ℕ} (h3 : 3 ≤ n_lon) (i_lat : ℕ) :
    bandTriples n_lon i_lat
      = ((List.range (n_lon - 1)).flatMap fun j =>
          [(1 + i_lat * n_lon + j, 1 + i_lat * n_lon + ((j + 1) % n_lon),
            (1 + i_lat * n_lon + j) + n_lon),
           (1 + i_lat * n_lon + ((j + 1) % n_lon),
            (1 + i_lat * n_lon + ((j + 1) % n_lon)) + n_lon,
            (1 + i_lat * n_lon + j) + n_lon)])
        ++ [(1 + i_lat * n_lon + 0, (1 + i_lat * n_lon + 0) + n_lon,
             1 + i_lat * n_lon + (n_lon - 1)),
            (1 + i_lat * n_lon + (n_lon - 1),
             (1 + i_lat * n_lon + 0) + n_lon,
             (1 + i_lat * n_lon + (n_lon - 1)) + n_lon)] := by
  unfold bandTriples
  congr 1
  · rw [List.range'_eq_map_range, List.flatMap_map]
    refine List.flatMap_congr ?_
    intro j hj
    rw [List.mem_range] at hj
    have hmod : (j + 1) % n_lon = j + 1 := Nat.mod_eq_of_lt (by omega)
    rw [hmod]
    refine congrArg₂ List.cons (Prod.ext ?_ (Prod.ext ?_ ?_))
      (congrArg₂ List.cons (Prod.ext ?_ (Prod.ext ?_ ?_)) rfl) <;>
      dsimp only <;> omega
  · have h0 : (0 + 1) % n_lon = 1 := Nat.mod_eq_of_lt (by omega)
    refine congrArg₂ List.cons (Prod.ext ?_ (Prod.ext ?_ ?_))
      (congrArg₂ List.cons (Prod.ext ?_ (Prod.ext ?_ ?_)) rfl) <;>
      dsimp only <;> omega

/-- Witness for the amended C7 at `longitudeCount = 3`, band `i_lat = 0`. -/
theorem claim_C7_amended_witness :
    3 ≤ 3 ∧
    bandTriples 3 0
      = ((List.range (3 - 1)).flatMap fun j =>
          [(1 + 0 * 3 + j, 1 + 0 * 3 + ((j + 1) % 3), (1 + 0 * 3 + j) + 3),
           (1 + 0 * 3 + ((j + 1) % 3), (1 + 0 * 3 + ((j + 1) % 3)) + 3,
            (1 + 0 * 3 + j) + 3)])
        ++ [(1 + 0 * 3 + 0, (1 + 0 * 3 + 0) + 3, 1 + 0 * 3 + (3 - 1)),
            (1 + 0 * 3 + (3 - 1), (1 + 0 * 3 + 0) + 3,
             (1 + 0 * 3 + (3 - 1)) + 3)] :=
  ⟨le_refl 3, claim_C7_amended (le_refl 3) 0⟩

/-! ### Claim C6: winding. Geometric groundwork -/

/-- Scalar triple product `a · (b × c)`, i.e. `det [a; b; c]`. -/
noncomputable def det3 (a b c : ℝ × ℝ × ℝ) : ℝ :=
  a.1 * (b.2.1 * c.2.2 - b.2.2 * c.2.1)
  - a.2.1 * (b.1 * c.2.2 - b.2.2 * c.1)
  + a.2.2 * (b.1 * c.2.1 - b.2.1 * c.1)

lemma ccw_iff_det3 (a b c : ℝ × ℝ × ℝ) :
    ccwFromOutside a b c ↔ 0 < det3 a b c := by
  have hd : dot3 (cross3 (b - a) (c - a)) (centroid3 a b c) = det3 a b c := by
    unfold dot3 cross3 centroid3 det3
    simp only [Prod.fst_sub, Prod.snd_sub]
    ring
  unfold ccwFromOutside
  rw [hd]

lemma sin_shift (a d : ℝ) :
    Real.sin (a + d) * Real.cos a - Real.cos (a + d) * Real.sin a
      = Real.sin d := by
  rw [Real.sin_add, Real.cos_add]
  linear_combination Real.sin d * Real.sin_sq_add_cos_sq a

lemma phi_shift (a d : ℝ) :
    Real.cos a * Real.sin (a + d) - Real.sin a * Real.cos (a + d)
      = Real.sin d := by
  rw [Real.sin_add, Real.cos_add]
  linear_combination Real.sin d * Real.sin_sq_add_cos_sq a

lemma sin_wrap {n : ℕ} (h : 1 ≤ n) :
    Real.sin ((↑(n - 1) : ℝ) * (2 * Real.pi / n))
      = -Real.sin (2 * Real.pi / n) := by
  have hn : (n:ℝ) ≠ 0 := by
    have : (1:ℝ) ≤ n := by exact_mod_cast h
    linarith
  have hang : (↑(n - 1) : ℝ) * (2 * Real.pi / n)
      = 2 * Real.pi - 2 * Real.pi / n := by
    rw [Nat.cast_sub h]
    push_cast
    field_simp
    ring
  rw [hang, Real.sin_sub, Real.sin_two_pi, Real.cos_two_pi]
  ring

lemma sin_lon_pos {n : ℕ} (h3 : 3 ≤ n) : 0 < Real.sin (2 * Real.pi / n) := by
  have hn : (0:ℝ) < n := by
    have : (3:ℝ) ≤ n := by exact_mod_cast h3
    linarith
  have hn3 : (3:ℝ) ≤ n := by exact_mod_cast h3
  apply Real.sin_pos_of_pos_of_lt_pi
  · exact div_pos (by positivity) hn
  · rw [div_lt_iff hn]
    nlinarith [Real.pi_pos]

lemma sin_lat_pos {m k : ℕ} (hk1 : 1 ≤ k) (hk2 : k < m) :
    0 < Real.sin ((k : ℝ) * (Real.pi / m)) := by
  have hm : (0:ℝ) < m := by
    have : (1:ℝ) ≤ m := by exact_mod_cast Nat.one_le_of_lt hk2
    linarith
  have hk : (1:ℝ) ≤ k := by exact_mod_cast hk1
  have hkm : (k:ℝ) < m := by exact_mod_cast hk2
  apply Real.sin_pos_of_pos_of_lt_pi
  · have := Real.pi_pos
    have hd : 0 < Real.pi / m := div_pos this hm
    nlinarith
  · rw [← mul_div_assoc, div_lt_iff hm]
    nlinarith [Real.pi_pos]

lemma sin_dlat_pos {m : ℕ} (h2 : 2 ≤ m) : 0 < Real.sin (Real.pi / m) := by
  have hm : (0:ℝ) < m := by
    have : (2:ℝ) ≤ m := by exact_mod_cast h2
    linarith
  apply Real.sin_pos_of_pos_of_lt_pi
  · exact div_pos Real.pi_pos hm
  · rw [div_lt_iff hm]
    nlinarith [Real.pi_pos, show (2:ℝ) ≤ m by exact_mod_cast h2]

lemma det_north (r θ₀ θ₁ φ : ℝ) :
    det3 (0, r, 0) (spherePt r θ₁ φ) (spherePt r θ₀ φ)
      = r ^ 3 * Real.sin φ ^ 2 *
        (Real.sin θ₁ * Real.cos θ₀ - Real.cos θ₁ * Real.sin θ₀) := by
  unfold det3 spherePt
  ring

lemma det_south (r θ₀ θ₁ φ : ℝ) :
    det3 (0, -r, 0) (spherePt r θ₀ φ) (spherePt r θ₁ φ)
      = r ^ 3 * Real.sin φ ^ 2 *
        (Real.sin θ₁ * Real.cos θ₀ - Real.cos θ₁ * Real.sin θ₀) := by
  unfold det3 spherePt
  ring

lemma det_body1 (r θ₀ θ₁ φ φ' : ℝ) :
    det3 (spherePt r θ₀ φ) (spherePt r θ₁ φ) (spherePt r θ₀ φ')
      = r ^ 3 * (Real.sin θ₁ * Real.cos θ₀ - Real.cos θ₁ * Real.sin θ₀)
        * Real.sin φ
        * (Real.cos φ * Real.sin φ' - Real.sin φ * Real.cos φ') := by
  unfold det3 spherePt
  ring

lemma det_body2 (r θ₀ θ₁ φ φ' : ℝ) :
    det3 (spherePt r θ₁ φ) (spherePt r θ₁ φ') (spherePt r θ₀ φ')
      = r ^ 3 * (Real.sin θ₁ * Real.cos θ₀ - Real.cos θ₁ * Real.sin θ₀)
        * Real.sin φ'
        * (Real.cos φ * Real.sin φ' - Real.sin φ * Real.cos φ') := by
  unfold det3 spherePt
  ring

lemma det_wrap1 (r α β φ φ' : ℝ) :
    det3 (spherePt r β φ) (spherePt r β φ') (spherePt r α φ)
      = -(r ^ 3) * (Real.sin α * Real.cos β - Real.cos α * Real.sin β)
        * Real.sin φ
        * (Real.cos φ * Real.sin φ' - Real.sin φ * Real.cos φ') := by
  unfold det3 spherePt
  ring

lemma det_wrap2 (r α β φ φ' : ℝ) :
    det3 (spherePt r α φ) (spherePt r β φ') (spherePt r α φ')
      = -(r ^ 3) * (Real.sin α * Real.cos β - Real.cos α * Real.sin β)
        * Real.sin φ'
        * (Real.cos φ * Real.sin φ' - Real.sin φ * Real.cos φ') := by
  unfold det3 spherePt
  ring

lemma position_of_north (r : ℝ) (n_lon n_lat : ℕ) :
    position_of r n_lon n_lat 0 = (0, r, 0) := by
  have hN := sv_triple_north r n_lon n_lat
  rw [position_of_eq, Nat.mul_zero, hN.1, hN.2.1, hN.2.2]

lemma position_of_south (r : ℝ) (n_lon n_lat : ℕ) :
    position_of r n_lon n_lat (n_lon * (n_lat - 1) + 1) = (0, -r, 0) := by
  have hS := sv_triple_south r n_lon n_lat
  rw [position_of_eq, hS.1, hS.2.1, hS.2.2]

lemma position_of_ringPt (r : ℝ) (n_lon n_lat k j : ℕ) (hk1 : 1 ≤ k)
    (hk2 : k < n_lat) (hj : j < n_lon) :
    position_of r n_lon n_lat (1 + (k - 1) * n_lon + j)
      = spherePt r (j * (2 * Real.pi / n_lon)) (k * (Real.pi / n_lat)) := by
  have hT := sv_triple_ring r hk1 hk2 hj
  rw [position_of_eq, hT.1, hT.2.1, hT.2.2]
  rfl

/-- C6: every triple of the generated index list names a triangle that is
counter-clockwise-wound when viewed from outside the sphere (its oriented
normal points outward through its centroid), consistently across the
north-cap fan, every body band including the wraparound triangles, and the
south-cap fan. -/
theorem claim_C6_ccw_winding {r : ℝ} {n_lon n_lat : ℕ} (hr : 0 < r)
    (h3 : 3 ≤ n_lon) (h2 : 2 ≤ n_lat) (hlt : n_lat < U32) :
    ∀ t ∈ chunk3 (set_indices n_lon n_lat),
      ccwFromOutside (position_of r n_lon n_lat t.1)
        (position_of r n_lon n_lat t.2.1)
        (position_of r n_lon n_lat t.2.2) := by
  intro t ht
  rw [set_indices, chunk3_flatMap, List.mem_append, List.mem_append] at ht
  rw [ccw_iff_det3]
  have hr3 : 0 < r ^ 3 := pow_pos hr 3
  have hlon := sin_lon_pos h3
  have hdlat := sin_dlat_pos h2
  rcases ht with (htN | htB) | htS
  · -- north cap
    have hphi1 : 0 < Real.sin (((1:ℕ) : ℝ) * (Real.pi / n_lat)) :=
      sin_lat_pos (le_refl 1) (by omega)
    simp only [northTriples, List.mem_append, List.mem_map, List.mem_range',
      List.mem_singleton] at htN
    rcases htN with ⟨i, ⟨z, hz, rfl⟩, rfl⟩ | rfl
    · dsimp only
      have ha : position_of r n_lon n_lat (1 + 1 * z + 1)
          = spherePt r (((z + 1 : ℕ) : ℝ) * (2 * Real.pi / n_lon))
              (((1:ℕ) : ℝ) * (Real.pi / n_lat)) := by
        have h := position_of_ringPt r n_lon n_lat (1) (z + 1) (le_refl 1)
          (by omega) (by omega)
        rw [show 1 + (1 - 1) * n_lon + (z + 1) = 1 + 1 * z + 1 by omega] at h
        exact h
      have hb : position_of r n_lon n_lat (1 + 1 * z)
          = spherePt r (((z : ℕ) : ℝ) * (2 * Real.pi / n_lon))
              (((1:ℕ) : ℝ) * (Real.pi / n_lat)) := by
        have h := position_of_ringPt r n_lon n_lat (1) (z) (le_refl 1)
          (by omega) (by omega)
        rw [show 1 + (1 - 1) * n_lon + z = 1 + 1 * z by omega] at h
        exact h
      rw [position_of_north, ha, hb, det_north,
        show ((z + 1 : ℕ) : ℝ) * (2 * Real.pi / n_lon)
            = ((z : ℕ) : ℝ) * (2 * Real.pi / n_lon) + 2 * Real.pi / n_lon by
          push_cast; ring,
        sin_shift]
      exact mul_pos (mul_pos hr3 (pow_pos hphi1 2)) hlon
    · dsimp only
      have ha : position_of r n_lon n_lat 1
          = spherePt r (((0:ℕ) : ℝ) * (2 * Real.pi / n_lon))
              (((1:ℕ) : ℝ) * (Real.pi / n_lat)) := by
        have h := position_of_ringPt r n_lon n_lat (1) (0) (le_refl 1)
          (by omega) (by omega)
        rw [show 1 + (1 - 1) * n_lon + 0 = 1 by omega] at h
        exact h
      have hb : position_of r n_lon n_lat n_lon
          = spherePt r (((n_lon - 1 : ℕ) : ℝ) * (2 * Real.pi / n_lon))
              (((1:ℕ) : ℝ) * (Real.pi / n_lat)) := by
        have h := position_of_ringPt r n_lon n_lat (1) (n_lon - 1) (le_refl 1)
          (by omega) (by omega)
        rw [show 1 + (1 - 1) * n_lon + (n_lon - 1) = n_lon by omega] at h
        exact h
      rw [position_of_north, ha, hb, det_north,
        show (((0:ℕ)) : ℝ) * (2 * Real.pi / n_lon) = 0 by push_cast; ring,
        Real.sin_zero, Real.cos_zero, sin_wrap (show 1 ≤ n_lon by omega)]
      nlinarith [mul_pos (mul_pos hr3 (pow_pos hphi1 2)) hlon]
  · -- body bands
    rw [bodyTriples, List.mem_flatMap] at htB
    obtain ⟨i_lat, hil, hband⟩ := htB
    rw [List.mem_range, bodyBandCount_eq h2 hlt] at hil
    have hphik : 0 < Real.sin (((i_lat + 1 : ℕ) : ℝ) * (Real.pi / n_lat)) :=
      sin_lat_pos (by omega) (by omega)
    have hphik1 : 0 < Real.sin (((i_lat + 2 : ℕ) : ℝ) * (Real.pi / n_lat)) :=
      sin_lat_pos (by omega) (by omega)
    have e1 : (i_lat + 1) - 1 = i_lat := by omega
    have e2 : (i_lat + 2) - 1 = i_lat + 1 := by omega
    have hmul : (i_lat + 1) * n_lon = i_lat * n_lon + n_lon := by ring
    have hphistep : ((i_lat + 2 : ℕ) : ℝ) * (Real.pi / n_lat)
        = ((i_lat + 1 : ℕ) : ℝ) * (Real.pi / n_lat) + Real.pi / n_lat := by
      push_cast; ring
    rw [hphistep] at hphik1
    have hup : ∀ j, j < n_lon →
        position_of r n_lon n_lat (1 + i_lat * n_lon + j)
          = spherePt r (((j : ℕ) : ℝ) * (2 * Real.pi / n_lon))
              (((i_lat + 1 : ℕ) : ℝ) * (Real.pi / n_lat)) := by
      intro j hj
      have h := position_of_ringPt r n_lon n_lat (i_lat + 1) (j) (by omega)
        (by omega) hj
      rw [e1] at h
      exact h
    have hlo : ∀ j, j < n_lon →
        position_of r n_lon n_lat (1 + (i_lat + 1) * n_lon + j)
          = spherePt r (((j : ℕ) : ℝ) * (2 * Real.pi / n_lon))
              (((i_lat + 2 : ℕ) : ℝ) * (Real.pi / n_lat)) := by
      intro j hj
      have h := position_of_ringPt r n_lon n_lat (i_lat + 2) (j) (by omega)
        (by omega) hj
      rw [e2] at h
      exact h
    simp only [bandTriples, List.mem_append, List.mem_flatMap,
      List.mem_range', List.mem_cons, List.not_mem_nil, or_false] at hband
    rcases hband with ⟨i_lon, ⟨z, hz, rfl⟩, rfl | rfl⟩ | rfl | rfl
    · -- main quad, first triangle
      dsimp only
      have ha : position_of r n_lon n_lat (1 + 1 * z + i_lat * n_lon)
          = spherePt r (((z : ℕ) : ℝ) * (2 * Real.pi / n_lon))
              (((i_lat + 1 : ℕ) : ℝ) * (Real.pi / n_lat)) := by
        have h := hup z (by omega)
        rw [show 1 + i_lat * n_lon + z = 1 + 1 * z + i_lat * n_lon by
          omega] at h
        exact h
      have hb : position_of r n_lon n_lat (1 + 1 * z + i_lat * n_lon + 1)
          = spherePt r (((z + 1 : ℕ) : ℝ) * (2 * Real.pi / n_lon))
              (((i_lat + 1 : ℕ) : ℝ) * (Real.pi / n_lat)) := by
        have h := hup (z + 1) (by omega)
        rw [show 1 + i_lat * n_lon + (z + 1)
            = 1 + 1 * z + i_lat * n_lon + 1 by omega] at h
        exact h
      have hc : position_of r n_lon n_lat (1 + 1 * z + n_lon + i_lat * n_lon)
          = spherePt r (((z : ℕ) : ℝ) * (2 * Real.pi / n_lon))
              (((i_lat + 2 : ℕ) : ℝ) * (Real.pi / n_lat)) := by
        have h := hlo z (by omega)
        rw [show 1 + (i_lat + 1) * n_lon + z
            = 1 + 1 * z + n_lon + i_lat * n_lon by omega] at h
        exact h
      rw [ha, hb, hc, det_body1,
        show ((z + 1 : ℕ) : ℝ) * (2 * Real.pi / n_lon)
            = ((z : ℕ) : ℝ) * (2 * Real.pi / n_lon) + 2 * Real.pi / n_lon by
          push_cast; ring,
        sin_shift, hphistep, phi_shift]
      exact mul_pos (mul_pos (mul_pos hr3 hlon) hphik) hdlat
    · -- main quad, second triangle
      dsimp only
      have ha : position_of r n_lon n_lat (1 + 1 * z + i_lat * n_lon + 1)
          = spherePt r (((z + 1 : ℕ) : ℝ) * (2 * Real.pi / n_lon))
              (((i_lat + 1 : ℕ) : ℝ) * (Real.pi / n_lat)) := by
        have h := hup (z + 1) (by omega)
        rw [show 1 + i_lat * n_lon + (z + 1)
            = 1 + 1 * z + i_lat * n_lon + 1 by omega] at h
        exact h
      have hb : position_of r n_lon n_lat
            (1 + 1 * z + n_lon + i_lat * n_lon + 1)
          = spherePt r (((z + 1 : ℕ) : ℝ) * (2 * Real.pi / n_lon))
              (((i_lat + 2 : ℕ) : ℝ) * (Real.pi / n_lat)) := by
        have h := hlo (z + 1) (by omega)
        rw [show 1 + (i_lat + 1) * n_lon + (z + 1)
            = 1 + 1 * z + n_lon + i_lat * n_lon + 1 by omega] at h
        exact h
      have hc : position_of r n_lon n_lat (1 + 1 * z + n_lon + i_lat * n_lon)
          = spherePt r (((z : ℕ) : ℝ) * (2 * Real.pi / n_lon))
              (((i_lat + 2 : ℕ) : ℝ) * (Real.pi / n_lat)) := by
        have h := hlo z (by omega)
        rw [show 1 + (i_lat + 1) * n_lon + z
            = 1 + 1 * z + n_lon + i_lat * n_lon by omega] at h
        exact h
      rw [ha, hb, hc, det_body2,
        show ((z + 1 : ℕ) : ℝ) * (2 * Real.pi / n_lon)
            = ((z : ℕ) : ℝ) * (2 * Real.pi / n_lon) + 2 * Real.pi / n_lon by
          push_cast; ring,
        sin_shift, hphistep, phi_shift]
      exact mul_pos (mul_pos (mul_pos hr3 hlon) hphik1) hdlat
    · -- wraparound quad, first triangle
      dsimp only
      have ha : position_of r n_lon n_lat (1 + i_lat * n_lon)
          = spherePt r (((0:ℕ) : ℝ) * (2 * Real.pi / n_lon))
              (((i_lat + 1 : ℕ) : ℝ) * (Real.pi / n_lat)) := by
        have h := hup 0 (by omega)
        rw [show 1 + i_lat * n_lon + 0 = 1 + i_lat * n_lon by omega] at h
        exact h
      have hb : position_of r n_lon n_lat (1 + i_lat * n_lon + n_lon)
          = spherePt r (((0:ℕ) : ℝ) * (2 * Real.pi / n_lon))
              (((i_lat + 2 : ℕ) : ℝ) * (Real.pi / n_lat)) := by
        have h := hlo 0 (by omega)
        rw [show 1 + (i_lat + 1) * n_lon + 0
            = 1 + i_lat * n_lon + n_lon by omega] at h
        exact h
      have hc : position_of r n_lon n_lat (n_lon + i_lat * n_lon)
          = spherePt r (((n_lon - 1 : ℕ) : ℝ) * (2 * Real.pi / n_lon))
              (((i_lat + 1 : ℕ) : ℝ) * (Real.pi / n_lat)) := by
        have h := hup (n_lon - 1) (by omega)
        rw [show 1 + i_lat * n_lon + (n_lon - 1)
            = n_lon + i_lat * n_lon by omega] at h
        exact h
      rw [ha, hb, hc, det_wrap1,
        show (((0:ℕ)) : ℝ) * (2 * Real.pi / n_lon) = 0 by push_cast; ring,
        Real.sin_zero, Real.cos_zero, sin_wrap (show 1 ≤ n_lon by omega),
        hphistep, phi_shift]
      nlinarith [mul_pos (mul_pos (mul_pos hr3 hlon) hphik) hdlat]
    · -- wraparound quad, second triangle
      dsimp only
      have ha : position_of r n_lon n_lat (n_lon + i_lat * n_lon)
          = spherePt r (((n_lon - 1 : ℕ) : ℝ) * (2 * Real.pi / n_lon))
              (((i_lat + 1 : ℕ) : ℝ) * (Real.pi / n_lat)) := by
        have h := hup (n_lon - 1) (by omega)
        rw [show 1 + i_lat * n_lon + (n_lon - 1)
            = n_lon + i_lat * n_lon by omega] at h
        exact h
      have hb : position_of r n_lon n_lat (1 + i_lat * n_lon + n_lon)
          = spherePt r (((0:ℕ) : ℝ) * (2 * Real.pi / n_lon))
              (((i_lat + 2 : ℕ) : ℝ) * (Real.pi / n_lat)) := by
        have h := hlo 0 (by omega)
        rw [show 1 + (i_lat + 1) * n_lon + 0
            = 1 + i_lat * n_lon + n_lon by omega] at h
        exact h
      have hc : position_of r n_lon n_lat (n_lon + i_lat * n_lon + n_lon)
          = spherePt r (((n_lon - 1 : ℕ) : ℝ) * (2 * Real.pi / n_lon))
              (((i_lat + 2 : ℕ) : ℝ) * (Real.pi / n_lat)) := by
        have h := hlo (n_lon - 1) (by omega)
        rw [show 1 + (i_lat + 1) * n_lon + (n_lon - 1)
            = n_lon + i_lat * n_lon + n_lon by omega] at h
        exact h
      rw [ha, hb, hc, det_wrap2,
        show (((0:ℕ)) : ℝ) * (2 * Real.pi / n_lon) = 0 by push_cast; ring,
        Real.sin_zero, Real.cos_zero, sin_wrap (show 1 ≤ n_lon by omega),
        hphistep, phi_shift]
      nlinarith [mul_pos (mul_pos (mul_pos hr3 hlon) hphik1) hdlat]
  · -- south cap
    have hphis : 0 < Real.sin (((n_lat - 1 : ℕ) : ℝ) * (Real.pi / n_lat)) :=
      sin_lat_pos (by omega) (by omega)
    have hone : n_lon * (n_lat - 1) = (n_lat - 2) * n_lon + n_lon := by
      obtain ⟨q, hq⟩ : ∃ q, n_lat = q + 2 := ⟨n_lat - 2, by omega⟩
      subst hq
      rw [show q + 2 - 1 = q + 1 by omega, show q + 2 - 2 = q by omega]
      ring
    have hlast : ∀ j, j < n_lon →
        position_of r n_lon n_lat (1 + (n_lat - 2) * n_lon + j)
          = spherePt r (((j : ℕ) : ℝ) * (2 * Real.pi / n_lon))
              (((n_lat - 1 : ℕ) : ℝ) * (Real.pi / n_lat)) := by
      intro j hj
      have h := position_of_ringPt r n_lon n_lat (n_lat - 1) (j) (by omega)
        (by omega) hj
      rw [show n_lat - 1 - 1 = n_lat - 2 by omega] at h
      exact h
    simp only [southTriples, indice_last, List.mem_append, List.mem_map,
      List.mem_range', List.mem_singleton] at htS
    rcases htS with ⟨i, ⟨z, hz, rfl⟩, rfl⟩ | rfl
    · dsimp only
      have ha : position_of r n_lon n_lat
            (n_lon * (n_lat - 1) + 1 - (1 + 1 * z + 1))
          = spherePt r (((n_lon - z - 2 : ℕ) : ℝ) * (2 * Real.pi / n_lon))
              (((n_lat - 1 : ℕ) : ℝ) * (Real.pi / n_lat)) := by
        have h := hlast (n_lon - z - 2) (by omega)
        rw [show 1 + (n_lat - 2) * n_lon + (n_lon - z - 2)
            = n_lon * (n_lat - 1) + 1 - (1 + 1 * z + 1) by omega] at h
        exact h
      have hb : position_of r n_lon n_lat
            (n_lon * (n_lat - 1) + 1 - (1 + 1 * z))
          = spherePt r (((n_lon - z - 1 : ℕ) : ℝ) * (2 * Real.pi / n_lon))
              (((n_lat - 1 : ℕ) : ℝ) * (Real.pi / n_lat)) := by
        have h := hlast (n_lon - z - 1) (by omega)
        rw [show 1 + (n_lat - 2) * n_lon + (n_lon - z - 1)
            = n_lon * (n_lat - 1) + 1 - (1 + 1 * z) by omega] at h
        exact h
      rw [position_of_south, ha, hb, det_south,
        show ((n_lon - z - 1 : ℕ) : ℝ) * (2 * Real.pi / n_lon)
            = ((n_lon - z - 2 : ℕ) : ℝ) * (2 * Real.pi / n_lon)
              + 2 * Real.pi / n_lon by
          rw [show n_lon - z - 1 = (n_lon - z - 2) + 1 by omega]
          push_cast; ring,
        sin_shift]
      exact mul_pos (mul_pos hr3 (pow_pos hphis 2)) hlon
    · dsimp only
      have ha : position_of r n_lon n_lat (n_lon * (n_lat - 1) + 1 - 1)
          = spherePt r (((n_lon - 1 : ℕ) : ℝ) * (2 * Real.pi / n_lon))
              (((n_lat - 1 : ℕ) : ℝ) * (Real.pi / n_lat)) := by
        have h := hlast (n_lon - 1) (by omega)
        rw [show 1 + (n_lat - 2) * n_lon + (n_lon - 1)
            = n_lon * (n_lat - 1) + 1 - 1 by omega] at h
        exact h
      have hb : position_of r n_lon n_lat
            (n_lon * (n_lat - 1) + 1 - n_lon)
          = spherePt r (((0:ℕ) : ℝ) * (2 * Real.pi / n_lon))
              (((n_lat - 1 : ℕ) : ℝ) * (Real.pi / n_lat)) := by
        have h := hlast 0 (by omega)
        rw [show 1 + (n_lat - 2) * n_lon + 0
            = n_lon * (n_lat - 1) + 1 - n_lon by omega] at h
        exact h
      rw [position_of_south, ha, hb, det_south,
        show (((0:ℕ)) : ℝ) * (2 * Real.pi / n_lon) = 0 by push_cast; ring,
        Real.sin_zero, Real.cos_zero, sin_wrap (show 1 ≤ n_lon by omega)]
      nlinarith [mul_pos (mul_pos hr3 (pow_pos hphis 2)) hlon]

/-- Witness for C6 at `radius = 1`, `longitudeCount = 3`,
`latitudeCount = 2`, applied to the first index triple `(0, 2, 1)`. -/
theorem claim_C6_ccw_winding_witness :
    (0:ℝ) < 1 ∧ 3 ≤ 3 ∧ 2 ≤ 2 ∧ 2 < U32 ∧
    ccwFromOutside (position_of 1 3 2 0) (position_of 1 3 2 2)
      (position_of 1 3 2 1) :=
  ⟨by norm_num, le_refl 3, le_refl 2, by norm_num [U32],
   claim_C6_ccw_winding (r := 1) (by norm_num) (le_refl 3) (le_refl 2)
     (by norm_num [U32]) (0, 2, 1) (by decide)⟩

/-! ### Claim C8: reference counts. Counting primitives -/

/-- Boolean test: does index triple `t` reference vertex `v`? -/
def refsB (v : ℕ) (t : ℕ × ℕ × ℕ) : Bool :=
  (t.1 == v) || (t.2.1 == v) || (t.2.2 == v)

/-- Number of index triples of the generated mesh referencing vertex `v`. -/
def refCount (n_lon n_lat v : ℕ) : ℕ :=
  (chunk3 (set_indices n_lon n_lat)).countP (refsB v)

lemma countP_or (l : List ℕ) (p q : ℕ → Bool)
    (h : ∀ x ∈ l, p x = false ∨ q x = false) :
    l.countP (fun i => p i || q i) = l.countP p + l.countP q := by
  induction l with
  | nil => rfl
  | cons a l ih =>
    rw [List.countP_cons, List.countP_cons, List.countP_cons,
      ih (fun x hx => h x (List.mem_cons_of_mem a hx))]
    have ha := h a (List.mem_cons_self a l)
    cases hp : p a <;> cases hq : q a <;> simp [hp, hq] at ha ⊢ <;> omega

lemma countP_flatMap_pair (l : List ℕ) (f g : ℕ → ℕ × ℕ × ℕ)
    (p : ℕ × ℕ × ℕ → Bool) :
    (l.flatMap fun i => [f i, g i]).countP p
      = l.countP (fun i => p (f i)) + l.countP (fun i => p (g i)) := by
  induction l with
  | nil => rfl
  | cons a l ih =>
    rw [List.flatMap_cons, List.countP_append, ih, List.countP_cons,
      List.countP_cons, List.countP_nil, List.countP_cons, List.countP_cons]
    omega

lemma countP_affine (v A : ℕ) : ∀ (m a : ℕ),
    (List.range' a m).countP (fun i => i + A == v)
      = if a + A ≤ v ∧ v < a + m + A then 1 else 0 := by
  intro m
  induction m with
  | zero =>
    intro a
    simp only [List.range', List.countP_nil]
    rw [if_neg (by omega)]
  | succ m ih =>
    intro a
    rw [List.range'_succ, List.countP_cons, ih (a + 1)]
    simp only [beq_iff_eq]
    split_ifs <;> omega

lemma countP_ident (v : ℕ) : ∀ (m a : ℕ),
    (List.range' a m).countP (fun i => i == v)
      = if a ≤ v ∧ v < a + m then 1 else 0 := by
  intro m
  induction m with
  | zero =>
    intro a
    simp only [List.range', List.countP_nil]
    rw [if_neg (by omega)]
  | succ m ih =>
    intro a
    rw [List.range'_succ, List.countP_cons, ih (a + 1)]
    simp only [beq_iff_eq]
    split_ifs <;> omega

lemma countP_succ_eq (v : ℕ) : ∀ (m a : ℕ),
    (List.range' a m).countP (fun i => i + 1 == v)
      = if a + 1 ≤ v ∧ v < a + m + 1 then 1 else 0 := by
  intro m a
  exact countP_affine v 1 m a

lemma countP_sub (c v : ℕ) : ∀ (m a : ℕ), a + m ≤ c →
    (List.range' a m).countP (fun i => c - i == v)
      = if c + 1 - (a + m) ≤ v ∧ v ≤ c - a then 1 else 0 := by
  intro m
  induction m with
  | zero =>
    intro a ha
    simp only [List.range', List.countP_nil]
    split_ifs with h
    · omega
    · rfl
  | succ m ih =>
    intro a ha
    rw [List.range'_succ, List.countP_cons, ih (a + 1) (by omega)]
    simp only [beq_iff_eq]
    split_ifs <;> omega

lemma countP_sub_succ (c v : ℕ) : ∀ (m a : ℕ), a + m + 1 ≤ c →
    (List.range' a m).countP (fun i => c - (i + 1) == v)
      = if c - (a + m) ≤ v ∧ v ≤ c - (a + 1) then 1 else 0 := by
  intro m a ha
  rw [List.countP_congr (q := fun i => (c - 1) - i == v) (fun x _ => by
    simp only [beq_iff_eq]
    constructor <;> intro h <;> omega),
    countP_sub (c - 1) v m a (by omega)]
  split_ifs <;> omega

lemma range'_split (s len i : ℕ) (hs : s ≤ i) (hi : i < s + len) :
    List.range' s len
      = List.range' s (i - s) ++ i :: List.range' (i + 1) (s + len - i - 1) := by
  obtain ⟨A, hA⟩ : ∃ A, i - s = A := ⟨_, rfl⟩
  obtain ⟨B, hB⟩ : ∃ B, s + len - i - 1 = B := ⟨_, rfl⟩
  rw [hA, hB, show len = 1 + B + A by omega, ← List.range'_append,
    show s + 1 * A = i by omega, show 1 + B = B + 1 by omega,
    List.range'_succ]

lemma sum_map_one (g : ℕ → ℕ) (m a : ℕ) (ha : a < m)
    (hz : ∀ i, i < m → i ≠ a → g i = 0) :
    ((List.range m).map g).sum = g a := by
  rw [List.range_eq_range', range'_split 0 m a (by omega) (by omega),
    List.map_append, List.sum_append, List.map_cons, List.sum_cons]
  have z1 : ((List.range' 0 (a - 0)).map g).sum = 0 :=
    List.sum_eq_zero (by
      intro x hx
      rw [List.mem_map] at hx
      obtain ⟨i, hi, rfl⟩ := hx
      rw [List.mem_range'] at hi
      obtain ⟨z, hzz, rfl⟩ := hi
      exact hz _ (by omega) (by omega))
  have z2 : ((List.range' (a + 1) (0 + m - a - 1)).map g).sum = 0 :=
    List.sum_eq_zero (by
      intro x hx
      rw [List.mem_map] at hx
      obtain ⟨i, hi, rfl⟩ := hx
      rw [List.mem_range'] at hi
      obtain ⟨z, hzz, rfl⟩ := hi
      exact hz _ (by omega) (by omega))
  rw [z1, z2]
  omega

lemma sum_map_two (g : ℕ → ℕ) (m a b : ℕ) (hab : a < b) (hb : b < m)
    (hz : ∀ i, i < m → i ≠ a → i ≠ b → g i = 0) :
    ((List.range m).map g).sum = g a + g b := by
  rw [List.range_eq_range', range'_split 0 m a (by omega) (by omega),
    List.map_append, List.sum_append, List.map_cons, List.sum_cons,
    range'_split (a + 1) (0 + m - a - 1) b (by omega) (by omega),
    List.map_append, List.sum_append, List.map_cons, List.sum_cons]
  have z1 : ((List.range' 0 (a - 0)).map g).sum = 0 :=
    List.sum_eq_zero (by
      intro x hx
      rw [List.mem_map] at hx
      obtain ⟨i, hi, rfl⟩ := hx
      rw [List.mem_range'] at hi
      obtain ⟨z, hzz, rfl⟩ := hi
      exact hz _ (by omega) (by omega) (by omega))
  have z2 : ((List.range' (a + 1) (b - (a + 1))).map g).sum = 0 :=
    List.sum_eq_zero (by
      intro x hx
      rw [List.mem_map] at hx
      obtain ⟨i, hi, rfl⟩ := hx
      rw [List.mem_range'] at hi
      obtain ⟨z, hzz, rfl⟩ := hi
      exact hz _ (by omega) (by omega) (by omega))
  have z3 : ((List.range' (b + 1) (a + 1 + (0 + m - a - 1) - b - 1)).map
      g).sum = 0 :=
    List.sum_eq_zero (by
      intro x hx
      rw [List.mem_map] at hx
      obtain ⟨i, hi, rfl⟩ := hx
      rw [List.mem_range'] at hi
      obtain ⟨z, hzz, rfl⟩ := hi
      exact hz _ (by omega) (by omega) (by omega))
  rw [z1, z2, z3]
  omega

lemma northTriples_count {n v : ℕ} (h3 : 3 ≤ n) (h1 : 1 ≤ v) :
    (northTriples n).countP (refsB v) = if v ≤ n then 2 else 0 := by
  have h0 : ((0 : ℕ) == v) = false := by
    simp only [beq_eq_false_iff_ne]
    omega
  unfold northTriples
  rw [List.countP_append, List.countP_map]
  simp only [Function.comp_def, refsB, h0, Bool.false_or]
  have hsplit := countP_or (List.range' 1 (n - 1))
    (fun i => i + 1 == v) (fun i => i == v) (by
      intro x hx
      by_cases hxv : x + 1 = v
      · right
        simp only [beq_eq_false_iff_ne]
        omega
      · left
        simp only [beq_eq_false_iff_ne]
        omega)
  rw [hsplit, countP_succ_eq, countP_ident, List.countP_cons, List.countP_nil]
  simp only [refsB, Bool.or_eq_true, beq_iff_eq]
  split_ifs <;> omega

lemma southTriples_count {n m v : ℕ} (h3 : 3 ≤ n) (h2 : 2 ≤ m) (h1 : 1 ≤ v)
    (hvS : v < indice_last n m) :
    (southTriples n m).countP (refsB v)
      = if indice_last n m - n ≤ v then 2 else 0 := by
  have hge : n ≤ n * (m - 1) := by
    have h := Nat.mul_le_mul_left n (show 1 ≤ m - 1 by omega)
    rw [Nat.mul_one] at h
    exact h
  have hL : ((indice_last n m : ℕ) == v) = false := by
    simp only [beq_eq_false_iff_ne]
    omega
  unfold southTriples
  rw [List.countP_append, List.countP_map]
  simp only [Function.comp_def, refsB, hL, Bool.false_or]
  have hsplit := countP_or (List.range' 1 (n - 1))
    (fun i => indice_last n m - (i + 1) == v)
    (fun i => indice_last n m - i == v) (by
      intro x hx
      rw [List.mem_range'] at hx
      obtain ⟨z, hz, rfl⟩ := hx
      unfold indice_last
      by_cases hxv : n * (m - 1) + 1 - (1 + 1 * z + 1) = v
      · right
        simp only [beq_eq_false_iff_ne]
        omega
      · left
        simp only [beq_eq_false_iff_ne]
        omega)
  rw [hsplit,
    countP_sub_succ (indice_last n m) v (n - 1) 1 (by unfold indice_last; omega),
    countP_sub (indice_last n m) v (n - 1) 1 (by unfold indice_last; omega),
    List.countP_cons, List.countP_nil]
  simp only [refsB, Bool.or_eq_true, beq_iff_eq]
  unfold indice_last
  unfold indice_last at hvS
  split_ifs <;> omega

lemma bandTriples_mem_ge {n i_lat : ℕ} (hn : 1 ≤ n) {t : ℕ × ℕ × ℕ}
    (ht : t ∈ bandTriples n i_lat) :
    1 + i_lat * n ≤ t.1 ∧ 1 + i_lat * n ≤ t.2.1 ∧ 1 + i_lat * n ≤ t.2.2 := by
  unfold bandTriples at ht
  simp only [List.mem_append, List.mem_flatMap, List.mem_range',
    List.mem_cons, List.not_mem_nil, or_false] at ht
  rcases ht with ⟨i, ⟨z, hz, rfl⟩, rfl | rfl⟩ | rfl | rfl <;>
    refine ⟨?_, ?_, ?_⟩ <;> dsimp only <;> omega

lemma bandTriples_count_zero {n i_lat v : ℕ} (hn : 1 ≤ n)
    (hout : v < 1 + i_lat * n ∨ (i_lat + 2) * n < v) :
    (bandTriples n i_lat).countP (refsB v) = 0 := by
  rw [List.countP_eq_zero]
  intro t ht
  have hle := bandTriples_mem_le hn ht
  have hge := bandTriples_mem_ge hn ht
  have hexp : (i_lat + 2) * n = i_lat * n + 2 * n := by ring
  simp only [refsB, Bool.or_eq_true, beq_iff_eq]
  omega

lemma bandTriples_count_upper {n i_lat b : ℕ} (h3 : 3 ≤ n) (hb : b < n) :
    (bandTriples n i_lat).countP (refsB (1 + i_lat * n + b))
      = if b = 0 then 2 else if b = n - 1 then 4 else 3 := by
  obtain ⟨v, hv⟩ : ∃ v, 1 + i_lat * n + b = v := ⟨_, rfl⟩
  rw [hv]
  unfold bandTriples
  rw [List.countP_append, countP_flatMap_pair]
  simp only [refsB, Nat.add_assoc]
  have s1 := countP_or (List.range' 1 (n - 1))
    (fun i => (i + i_lat * n == v) || (i + (i_lat * n + 1) == v))
    (fun i => i + (n + i_lat * n) == v) (by
      intro x hx
      by_cases hq : x + (n + i_lat * n) = v
      · left
        simp only [Bool.or_eq_false_iff, beq_eq_false_iff_ne]
        omega
      · right
        simp only [beq_eq_false_iff_ne]
        omega)
  have s2 := countP_or (List.range' 1 (n - 1))
    (fun i => i + i_lat * n == v) (fun i => i + (i_lat * n + 1) == v) (by
      intro x hx
      by_cases hq : x + (i_lat * n + 1) = v
      · left
        simp only [beq_eq_false_iff_ne]
        omega
      · right
        simp only [beq_eq_false_iff_ne]
        omega)
  have s3 := countP_or (List.range' 1 (n - 1))
    (fun i => (i + (i_lat * n + 1) == v) || (i + (n + (i_lat * n + 1)) == v))
    (fun i => i + (n + i_lat * n) == v) (by
      intro x hx
      by_cases hq : x + (n + i_lat * n) = v
      · left
        simp only [Bool.or_eq_false_iff, beq_eq_false_iff_ne]
        omega
      · right
        simp only [beq_eq_false_iff_ne]
        omega)
  have s4 := countP_or (List.range' 1 (n - 1))
    (fun i => i + (i_lat * n + 1) == v)
    (fun i => i + (n + (i_lat * n + 1)) == v) (by
      intro x hx
      by_cases hq : x + (n + (i_lat * n + 1)) = v
      · left
        simp only [beq_eq_false_iff_ne]
        omega
      · right
        simp only [beq_eq_false_iff_ne]
        omega)
  rw [s1, s2, s3, s4, countP_affine v (i_lat * n) (n - 1) 1,
    countP_affine v (i_lat * n + 1) (n - 1) 1,
    countP_affine v (n + i_lat * n) (n - 1) 1,
    countP_affine v (n + (i_lat * n + 1)) (n - 1) 1,
    List.countP_cons, List.countP_cons, List.countP_nil]
  simp only [refsB, Bool.or_eq_true, beq_iff_eq]
  split_ifs <;> omega

lemma bandTriples_count_lower {n i_lat b : ℕ} (h3 : 3 ≤ n) (hb : b < n) :
    (bandTriples n i_lat).countP (refsB (1 + (i_lat + 1) * n + b))
      = if b = 0 then 4 else if b = n - 1 then 2 else 3 := by
  have hmul : (i_lat + 1) * n = i_lat * n + n := by ring
  obtain ⟨v, hv⟩ : ∃ v, 1 + (i_lat + 1) * n + b = v := ⟨_, rfl⟩
  rw [hv]
  rw [hmul] at hv
  unfold bandTriples
  rw [List.countP_append, countP_flatMap_pair]
  simp only [refsB, Nat.add_assoc]
  have s1 := countP_or (List.range' 1 (n - 1))
    (fun i => (i + i_lat * n == v) || (i + (i_lat * n + 1) == v))
    (fun i => i + (n + i_lat * n) == v) (by
      intro x hx
      by_cases hq : x + (n + i_lat * n) = v
      · left
        simp only [Bool.or_eq_false_iff, beq_eq_false_iff_ne]
        omega
      · right
        simp only [beq_eq_false_iff_ne]
        omega)
  have s2 := countP_or (List.range' 1 (n - 1))
    (fun i => i + i_lat * n == v) (fun i => i + (i_lat * n + 1) == v) (by
      intro x hx
      by_cases hq : x + (i_lat * n + 1) = v
      · left
        simp only [beq_eq_false_iff_ne]
        omega
      · right
        simp only [beq_eq_false_iff_ne]
        omega)
  have s3 := countP_or (List.range' 1 (n - 1))
    (fun i => (i + (i_lat * n + 1) == v) || (i + (n + (i_lat * n + 1)) == v))
    (fun i => i + (n + i_lat * n) == v) (by
      intro x hx
      by_cases hq : x + (n + i_lat * n) = v
      · left
        simp only [Bool.or_eq_false_iff, beq_eq_false_iff_ne]
        omega
      · right
        simp only [beq_eq_false_iff_ne]
        omega)
  have s4 := countP_or (List.range' 1 (n - 1))
    (fun i => i + (i_lat * n + 1) == v)
    (fun i => i + (n + (i_lat * n + 1)) == v) (by
      intro x hx
      by_cases hq : x + (n + (i_lat * n + 1)) = v
      · left
        simp only [beq_eq_false_iff_ne]
        omega
      · right
        simp only [beq_eq_false_iff_ne]
        omega)
  rw [s1, s2, s3, s4, countP_affine v (i_lat * n) (n - 1) 1,
    countP_affine v (i_lat * n + 1) (n - 1) 1,
    countP_affine v (n + i_lat * n) (n - 1) 1,
    countP_affine v (n + (i_lat * n + 1)) (n - 1) 1,
    List.countP_cons, List.countP_cons, List.countP_nil]
  simp only [refsB, Bool.or_eq_true, beq_iff_eq]
  split_ifs <;> omega

/-- Counterexample to C8 at `longitudeCount = 3`, `latitudeCount = 3`:
vertex 2 is a ring vertex of a cap-adjacent ring (ring 1 of 2), yet it is
referenced by exactly 5 index triple — neither the claimed 6 nor the
claimed cap-adjacent count 4. -/
theorem claim_C8_counterexample :
    refCount 3 3 2 = 5 ∧ ¬(refCount 3 3 2 = 6 ∨ refCount 3 3 2 = 4) := by
  decide

/-- C8 as amended: the exact per-vertex reference counts.  For a ring
vertex `v = 1 + (k−1)·longitudeCount + b` (ring `k`, azimuth `b`): when
`latitudeCount = 2` every ring vertex lies in both cap-adjacent rings and
is referenced by exactly 4 triples; when `latitudeCount ≥ 3`, vertices of
interior rings (`2 ≤ k ≤ latitudeCount−2`) are referenced by exactly 6
triples, while in the cap-adjacent rings the count depends on the azimuth
because the wraparound quad flips its diagonal: in the north-adjacent ring
(`k = 1`) the seam vertex `b = 0` is in 4 triples, `b = longitudeCount−1`
in 6, all others in 5; mirrored for the south-adjacent ring
(`k = latitudeCount−1`). -/
theorem claim_C8_amended {n_lon n_lat : ℕ} (h3 : 3 ≤ n_lon) (h2 : 2 ≤ n_lat)
    (hlt : n_lat < U32) (k b : ℕ) (hk1 : 1 ≤ k) (hk2 : k ≤ n_lat - 1)
    (hb : b < n_lon) :
    refCount n_lon n_lat (1 + (k - 1) * n_lon + b)
      = if n_lat = 2 then 4
        else if k = 1 then
          (if b = 0 then 4 else if b = n_lon - 1 then 6 else 5)
        else if k = n_lat - 1 then
          (if b = 0 then 6 else if b = n_lon - 1 then 4 else 5)
        else 6 := by
  obtain ⟨q, rfl⟩ : ∃ q, k = q + 1 := ⟨k - 1, by omega⟩
  simp only [Nat.add_sub_cancel]
  have h1v : 1 ≤ 1 + q * n_lon + b := by omega
  have hone : n_lon * (n_lat - 1) = (n_lat - 2) * n_lon + n_lon := by
    obtain ⟨w, hw⟩ : ∃ w, n_lat = w + 2 := ⟨n_lat - 2, by omega⟩
    subst hw
    rw [show w + 2 - 1 = w + 1 by omega, show w + 2 - 2 = w by omega]
    ring
  unfold refCount set_indices
  rw [chunk3_flatMap, List.countP_append, List.countP_append,
    northTriples_count h3 h1v, bodyTriples, List.countP_flatMap,
    bodyBandCount_eq h2 hlt]
  simp only [Function.comp_def]
  rw [southTriples_count h3 h2 h1v (by
    unfold indice_last
    have hr1 : (q + 1) * n_lon ≤ (n_lat - 1) * n_lon :=
      Nat.mul_le_mul_right _ (by omega)
    have hr2 : (q + 1) * n_lon = q * n_lon + n_lon := by ring
    have hr3 : (n_lat - 1) * n_lon = n_lon * (n_lat - 1) := Nat.mul_comm _ _
    omega)]
  unfold indice_last
  by_cases hm2 : n_lat = 2
  · subst hm2
    have hq0 : q = 0 := by omega
    subst hq0
    simp only [show (2:ℕ) - 2 = 0 from rfl, List.range_zero, List.map_nil,
      List.sum_nil, show (2:ℕ) - 1 = 1 from rfl]
    split_ifs <;> omega
  · by_cases hq0 : q = 0
    · subst hq0
      rw [sum_map_one _ (n_lat - 2) 0 (by omega) (by
        intro i hi hne
        refine bandTriples_count_zero (by omega) (Or.inl ?_)
        have hler : n_lon ≤ i * n_lon :=
          Nat.le_mul_of_pos_left n_lon (by omega)
        omega)]
      rw [@bandTriples_count_upper n_lon 0 b h3 hb]
      have hq2 : n_lon ≤ (n_lat - 2) * n_lon :=
        Nat.le_mul_of_pos_left n_lon (by omega)
      split_ifs <;> omega
    · by_cases hqend : q = n_lat - 2
      · rw [sum_map_one _ (n_lat - 2) (q - 1) (by omega) (by
          intro i hi hne
          refine bandTriples_count_zero (by omega) (Or.inr ?_)
          have hler : (i + 2) * n_lon ≤ q * n_lon :=
            Nat.mul_le_mul_right _ (by omega)
          omega)]
        have hlow := @bandTriples_count_lower n_lon (q - 1) b h3 hb
        rw [show q - 1 + 1 = q by omega] at hlow
        rw [hlow, hqend]
        have hq2 : n_lon ≤ (n_lat - 2) * n_lon :=
          Nat.le_mul_of_pos_left n_lon (by omega)
        split_ifs <;> omega
      · rw [sum_map_two _ (n_lat - 2) (q - 1) q (by omega) (by omega) (by
          intro i hi hne1 hne2
          rcases Nat.lt_or_ge i q with hiq | hiq
          · refine bandTriples_count_zero (by omega) (Or.inr ?_)
            have hler : (i + 2) * n_lon ≤ q * n_lon :=
              Nat.mul_le_mul_right _ (by omega)
            omega
          · refine bandTriples_count_zero (by omega) (Or.inl ?_)
            have hler : (q + 1) * n_lon ≤ i * n_lon :=
              Nat.mul_le_mul_right _ (by omega)
            have hr2 : (q + 1) * n_lon = q * n_lon + n_lon := by ring
            omega)]
        have hlow := @bandTriples_count_lower n_lon (q - 1) b h3 hb
        rw [show q - 1 + 1 = q by omega] at hlow
        rw [hlow, @bandTriples_count_upper n_lon q b h3 hb]
        have hge1 : n_lon ≤ q * n_lon := Nat.le_mul_of_pos_left n_lon (by omega)
        have hler : (q + 1) * n_lon ≤ (n_lat - 2) * n_lon :=
          Nat.mul_le_mul_right _ (by omega)
        have hr2 : (q + 1) * n_lon = q * n_lon + n_lon := by ring
        split_ifs <;> omega

/-- Witness for the amended C8 at `longitudeCount = 3`, `latitudeCount = 4`,
ring `k = 2` (interior), azimuth `b = 1`. -/
theorem claim_C8_amended_witness :
    3 ≤ 3 ∧ 2 ≤ 4 ∧ 4 < U32 ∧ 1 ≤ 2 ∧ 2 ≤ 4 - 1 ∧ 1 < 3 ∧
    refCount 3 4 (1 + (2 - 1) * 3 + 1)
      = if 4 = 2 then 4
        else if 2 = 1 then (if 1 = 0 then 4 else if 1 = 3 - 1 then 6 else 5)
        else if 2 = 4 - 1 then
          (if 1 = 0 then 6 else if 1 = 3 - 1 then 4 else 5)
        else 6 :=
  ⟨le_refl 3, by norm_num, by norm_num [U32], by norm_num, by norm_num,
   by norm_num,
   claim_C8_amended (le_refl 3) (by norm_num) (by norm_num [U32]) 2 1
     (by norm_num) (by norm_num) (by norm_num)⟩

end SphereMesh
